import Mathlib

/-!
# Verification of the Minecraft-Bedrock-Data-Handlers convenience layer

Shallow embedding of `src/scripts/functions/forms.ts`: the `ChestFormData`
form builder, the `queueForm` retry protocol, the `ItemData` item-metadata
wrapper (custom lore / custom enchantments / custom effects and the
`updateLore` lore-regeneration routine), and the `WorldDataT` world store.

Host collaborators that are not part of the repository snapshot
(`safeJsonParser`/`safeJsonStringify`, `removeFormat`, the static title
tables, the icon-id tables) are modelled from the specification; each such
definition carries a doc comment saying so.
-/

/-! ## JSON values

JavaScript values flowing through the dynamic-property layer. The host's
per-item and world key/value store accepts strings, numbers and booleans;
objects are JSON-encoded at the boundary. Numbers are modelled as integers
(the metadata stored by this code is integer levels and text). -/

/-- A JSON value: the universe of JSON-serializable JavaScript values.
Objects are ordered field lists (JavaScript objects iterate string keys in
insertion order, which the lore-regeneration algorithm relies on). -/
inductive Json where
  | jnull : Json
  | jbool (b : Bool) : Json
  | jnum (n : Int) : Json
  | jstr (s : String) : Json
  | jarr (elems : List Json) : Json
  | jobj (fields : List (String × Json)) : Json

/-- A JavaScript value as seen by callers of the dynamic-property API:
either `undefined` or a defined (JSON-serializable) value. -/
inductive JSVal where
  | undef : JSVal
  | val (j : Json) : JSVal

/-- A raw value as held by the host dynamic-property store:
string, number or boolean. -/
inductive Raw where
  | rstr (s : String) : Raw
  | rnum (n : Int) : Raw
  | rbool (b : Bool) : Raw
deriving DecidableEq

/-! ## The JSON codec

Modelled from the spec: `safeJsonStringify` / `safeJsonParser`
(`../functions/json`, not in the source snapshot). The spec fixes only the
contract — non-primitive values are transparently JSON-encoded on write and
decoded on read, and decode failures yield the raw string rather than a
fault — so the concrete wire syntax is an opaque detail of the external
collaborator. It is modelled as an injective tagged encoding with a
prefix-consuming, fuel-indexed decoder, which satisfies the spec's
transparency contract (`decodeJson_encJson`). -/

/-- Unary encoding of a natural number (`n` ones then a zero); used as the
length prefix for embedded strings. -/
def encNatU (n : Nat) : List Char :=
  List.replicate n '1' ++ ['0']

/-- Decode a unary natural, returning it with the unconsumed tail. -/
def decNatU : List Char → Option (Nat × List Char)
  | '0' :: rest => some (0, rest)
  | '1' :: rest =>
    match decNatU rest with
    | some (n, rest') => some (n + 1, rest')
    | none => none
  | _ => none

/-- Length-prefixed encoding of a string (so string content never needs
escaping). -/
def encStr (s : String) : List Char :=
  encNatU s.length ++ s.data

/-- Decode a length-prefixed string. -/
def decStr (cs : List Char) : Option (String × List Char) :=
  match decNatU cs with
  | some (n, rest) =>
    if n ≤ rest.length then some (String.mk (rest.take n), rest.drop n) else none
  | none => none

/-- Sign-tagged integer encoding. -/
def encInt (n : Int) : List Char :=
  if n < 0 then '-' :: encNatU n.natAbs else '+' :: encNatU n.natAbs

/-- Decode a sign-tagged integer. -/
def decInt : List Char → Option (Int × List Char)
  | '-' :: rest =>
    match decNatU rest with
    | some (n, rest') => some (-(n : Int), rest')
    | none => none
  | '+' :: rest =>
    match decNatU rest with
    | some (n, rest') => some ((n : Int), rest')
    | none => none
  | _ => none

mutual
/-- Encode a JSON value: a tag character followed by the payload. -/
def encJson : Json → List Char
  | .jnull => ['N']
  | .jbool true => ['T']
  | .jbool false => ['F']
  | .jnum n => 'I' :: encInt n
  | .jstr s => 'S' :: encStr s
  | .jarr xs => 'A' :: encJsonList xs
  | .jobj fs => 'O' :: encJsonFields fs

/-- Encode array elements one after another, closed by a `;` sentinel
(every element encoding starts with a tag character, never `;`). -/
def encJsonList : List Json → List Char
  | [] => [';']
  | j :: t => encJson j ++ encJsonList t

/-- Encode object fields (length-prefixed key, then value), closed by `;`. -/
def encJsonFields : List (String × Json) → List Char
  | [] => [';']
  | (k, v) :: t => encStr k ++ encJson v ++ encJsonFields t
end

/-- What the fuel-indexed decoding step is currently parsing. -/
inductive PMode where
  | pj : PMode
  | plist : PMode
  | pfields : PMode
deriving DecidableEq

/-- Result of a decoding step. -/
inductive PRes where
  | rj (j : Json) : PRes
  | rlist (xs : List Json) : PRes
  | rfields (fs : List (String × Json)) : PRes

/-- One prefix-consuming decoder for the three syntactic categories, indexed
by fuel so that recursion is structural (and hence kernel-reducible). -/
def pstep : Nat → PMode → List Char → Option (PRes × List Char)
  | 0, _, _ => none
  | fuel + 1, .pj, cs =>
    match cs with
    | 'N' :: r => some (.rj .jnull, r)
    | 'T' :: r => some (.rj (.jbool true), r)
    | 'F' :: r => some (.rj (.jbool false), r)
    | 'I' :: r =>
      match decInt r with
      | some (n, r') => some (.rj (.jnum n), r')
      | none => none
    | 'S' :: r =>
      match decStr r with
      | some (s, r') => some (.rj (.jstr s), r')
      | none => none
    | 'A' :: r =>
      match pstep fuel .plist r with
      | some (.rlist xs, r') => some (.rj (.jarr xs), r')
      | _ => none
    | 'O' :: r =>
      match pstep fuel .pfields r with
      | some (.rfields fs, r') => some (.rj (.jobj fs), r')
      | _ => none
    | _ => none
  | fuel + 1, .plist, cs =>
    match cs with
    | [] => none
    | c :: r =>
      if c = ';' then some (.rlist [], r)
      else
        match pstep fuel .pj (c :: r) with
        | some (.rj j, r') =>
          match pstep fuel .plist r' with
          | some (.rlist xs, r'') => some (.rlist (j :: xs), r'')
          | _ => none
        | _ => none
  | fuel + 1, .pfields, cs =>
    match cs with
    | [] => none
    | c :: r =>
      if c = ';' then some (.rfields [], r)
      else
        match decStr (c :: r) with
        | some (k, r') =>
          match pstep fuel .pj r' with
          | some (.rj v, r'') =>
            match pstep fuel .pfields r'' with
            | some (.rfields fs, r''') => some (.rfields ((k, v) :: fs), r''')
            | _ => none
          | _ => none
        | none => none

/-- Decode a whole string as one JSON value, requiring full consumption;
`none` models a `JSON.parse` failure. -/
def decodeJson (s : String) : Option Json :=
  match pstep (s.data.length + 1) .pj s.data with
  | some (.rj j, []) => some j
  | _ => none

/-- Modelled from the spec: `safeJsonStringify` (`../functions/json`, not in
the source snapshot) — JSON-encode a value; never faults on the success
path. -/
def safeJsonStringify (j : Json) : String :=
  String.mk (encJson j)

/-- Modelled from the spec: `safeJsonParser` (`../functions/json`, not in
the source snapshot) — try to decode a stored raw value; a string that does
not decode is returned unchanged, numbers and booleans pass through, and a
missing value stays `undefined`. -/
def safeJsonParser : Option Raw → JSVal
  | none => .undef
  | some (.rnum n) => .val (.jnum n)
  | some (.rbool b) => .val (.jbool b)
  | some (.rstr s) =>
    match decodeJson s with
    | some j => .val j
    | none => .val (.jstr s)

mutual
/-- Structural size of a JSON value, used as a fuel bound for `pstep`. -/
def sizeJ : Json → Nat
  | .jnull => 1
  | .jbool _ => 1
  | .jnum _ => 1
  | .jstr _ => 1
  | .jarr xs => 1 + sizeL xs
  | .jobj fs => 1 + sizeO fs

/-- Structural size of an array body (the empty body still costs one step
for its sentinel). -/
def sizeL : List Json → Nat
  | [] => 1
  | j :: t => sizeJ j + sizeL t

/-- Structural size of an object body. -/
def sizeO : List (String × Json) → Nat
  | [] => 1
  | (_, v) :: t => sizeJ v + sizeO t
end

/-! ## JavaScript value semantics

Helpers giving the JavaScript meaning of the operations the source applies
to decoded metadata values. -/

/-- JavaScript truthiness of a value. -/
def jsTruthy : JSVal → Bool
  | .undef => false
  | .val .jnull => false
  | .val (.jbool b) => b
  | .val (.jnum n) => decide (n ≠ 0)
  | .val (.jstr s) => decide (s ≠ "")
  | .val (.jarr _) => true
  | .val (.jobj _) => true

/-- JavaScript `a || b`. -/
def jsOr (a b : JSVal) : JSVal := if jsTruthy a then a else b

/-- Field lookup on an object's ordered field list. -/
def objGet : List (String × Json) → String → Option Json
  | [], _ => none
  | (k, v) :: t, key => if k = key then some v else objGet t key

/-- JavaScript object assignment `o[k] = v`: an existing key keeps its
position, a new key is appended (insertion order). -/
def objSet : List (String × Json) → String → Json → List (String × Json)
  | [], key, v => [(key, v)]
  | (k, w) :: t, key, v => if k = key then (k, v) :: t else (k, w) :: objSet t key v

/-- JavaScript `delete o[k]`. -/
def objDelete : List (String × Json) → String → List (String × Json)
  | [], _ => []
  | (k, w) :: t, key => if k = key then t else (k, w) :: objDelete t key

/-- The key list of JavaScript `for (const k in v)` / `Object.keys(v)`:
own enumerable keys in insertion order for objects, index strings for
strings, nothing for other primitives. -/
def forInKeys : JSVal → List String
  | .val (.jobj fs) => fs.map Prod.fst
  | .val (.jstr s) => (List.range s.length).map (fun i => toString i)
  | _ => []

/-- JavaScript property read `v[k]` for the shapes reaching the metadata
loops: object field lookup, string character access, `undefined`
otherwise. -/
def jsIndex : JSVal → String → JSVal
  | .val (.jobj fs), key =>
    match objGet fs key with
    | some v => .val v
    | none => .undef
  | .val (.jstr s), key =>
    (match key.toNat? with
     | some i =>
       if toString i = key ∧ i < s.length then .val (.jstr (String.mk [s.data.getD i ' ']))
       else .undef
     | none => .undef)
  | _, _ => (.undef)

/-- JavaScript strict-mode property write `target[k] = v` as used by the
metadata mutators: updates or appends the field on a plain object; on any
other target the write faults (`TypeError` on primitives, `null` and
`undefined`; writing a string property on an array, which JSON
serialization would silently drop, is not reachable from the claims and is
modelled as a fault as well). -/
def jsSetField : JSVal → String → Json → Except String JSVal
  | .val (.jobj fs), key, v => .ok (.val (.jobj (objSet fs key v)))
  | _, _, _ => .error "TypeError"

/-- JavaScript strict-mode `delete target[k]` for the same shapes. -/
def jsDelete : JSVal → String → Except String JSVal
  | .val (.jobj fs), key => .ok (.val (.jobj (objDelete fs key)))
  | _, _ => .error "TypeError"

/-- JavaScript property read `v.field` where `v` may be anything: faults
on `undefined` and `null`, looks the field up on objects, and yields
`undefined` on other values (the fields read here, `name` and `level`, are
not own properties of primitives or arrays). -/
def jsFieldE : JSVal → String → Except String JSVal
  | .undef, _ => .error "TypeError"
  | .val .jnull, _ => .error "TypeError"
  | .val (.jobj fs), key =>
    .ok (match objGet fs key with
         | some v => .val v
         | none => .undef)
  | _, _ => .ok (.undef)

/-- JavaScript string coercion for a non-container value. -/
def jsToStrLeaf : Json → String
  | .jnull => "null"
  | .jbool true => "true"
  | .jbool false => "false"
  | .jnum n => toString n
  | .jstr s => s
  | .jarr _ => ""
  | .jobj _ => "[object Object]"

/-- JavaScript string coercion of the values reaching string contexts in
`updateLore` (property keys and `+` concatenation). Primitives are exact;
an array joins its elements (nesting beyond one level, which no claim
exercises, falls back to the leaf coercion). -/
def jsToStr : JSVal → String
  | .undef => "undefined"
  | .val (.jarr xs) => String.intercalate "," (xs.map jsToStrLeaf)
  | .val j => jsToStrLeaf j

/-- JavaScript `lookup || fallback` where the lookup produced a string or
`undefined` (an empty-string hit is falsy and also falls back). -/
def strOr : Option String → String → String
  | some s, b => if s = "" then b else s
  | none, b => b

/-- JavaScript `category || index` for the optional category parameter of
the custom-lore mutators. -/
def jsStrParamOr (category : Option String) (index : String) : String :=
  match category with
  | some c => if c = "" then index else c
  | none => index

/-! ## Formatting helpers of `updateLore` -/

/-- Modelled from the spec: the `BOLD` member of `MinecraftFormatCodes`
(`./ChatFormat`, not in the source snapshot) — the standard Minecraft bold
formatting code. -/
def MinecraftFormatCodes.BOLD : String := "§l"

/-- Modelled from the spec: the `RESET` member of `MinecraftFormatCodes`
(`./ChatFormat`, not in the source snapshot). -/
def MinecraftFormatCodes.RESET : String := "§r"

/-- Modelled from the spec: `removeFormat` (`./ChatFormat`, not in the
source snapshot) — strips every formatting-code sequence (a `§` and the
character following it) from the text. -/
def removeFormatL : List Char → List Char
  | [] => []
  | '§' :: [] => ['§']
  | '§' :: _ :: rest => removeFormatL rest
  | c :: rest => c :: removeFormatL rest

/-- `removeFormat` on strings. -/
def removeFormat (s : String) : String := String.mk (removeFormatL s.data)

/-- A run of space characters. -/
def mkSpaces (n : Nat) : String := String.mk (List.replicate n ' ')

/-- JavaScript `" ".repeat(count)`: faults (`RangeError`) on a negative
count, else produces that many spaces. -/
def jsRepeatSpaces (count : Int) : Option String :=
  if count < 0 then none else some (mkSpaces count.toNat)

/-- `Math.floor(x / 2 + 0.5)` for an integer `x` (the operands reaching
this expression in `updateLore` are integers, so the float computation is
exact): equals the floor of `(x + 1) / 2`. -/
def mathFloorHalfPlusHalf (x : Int) : Int := Int.fdiv (x + 1) 2

/-- `Math.floor(x / 2)` for an integer `x`. -/
def mathFloorHalf (x : Int) : Int := Int.fdiv x 2

/-- `const longestText = "Has Custom Properties"` (line 727): the
reference width for centering. -/
def longestText : String := "Has Custom Properties"

/-- The centred non-header line construction shared by the single-string
custom-lore case, category list items, enchantment lines and effect lines
(lines 738-740, 745-747, 759-761, 776-778): left-pad the text with
`Math.floor((W - displayLength) / 2 + 0.5) + 3` spaces, where
`displayLength` is the format-stripped length of the text; `none` models
the `RangeError` that `" ".repeat` raises on a negative count. -/
def centeredBody (text : String) : Option String :=
  let displayLength : Int := ((removeFormat text).length : Int)
  let displaySpaces : Int := (longestText.length : Int) - displayLength
  (jsRepeatSpaces (mathFloorHalfPlusHalf displaySpaces + 3)).map (fun pad => pad ++ text)

/-- The category header emitted for a list-valued custom-lore entry
(line 743): padded with `Math.floor(W / 2 + 0.5) + 3` spaces — the formula
uses the full reference width, independent of the header text. -/
def catHeaderLine (key : String) : String :=
  mkSpaces (mathFloorHalfPlusHalf (longestText.length : Int) + 3).toNat
    ++ MinecraftFormatCodes.BOLD ++ key ++ MinecraftFormatCodes.RESET

/-- The "Enchantments" header (lines 753-754): padded with
`Math.floor((W - "Enchantments".length) / 2) + 1` spaces. -/
def enchantmentsHeaderLine : String :=
  mkSpaces (mathFloorHalf ((longestText.length : Int) - ("Enchantments".length : Int)) + 1).toNat
    ++ MinecraftFormatCodes.BOLD ++ "Enchantments" ++ MinecraftFormatCodes.RESET

/-- The "Effects" header (lines 769-770): same construction for
"Effects". -/
def effectsHeaderLine : String :=
  mkSpaces (mathFloorHalf ((longestText.length : Int) - ("Effects".length : Int)) + 1).toNat
    ++ MinecraftFormatCodes.BOLD ++ "Effects" ++ MinecraftFormatCodes.RESET

/-! ## The `ItemData` wrapper state and effect monad -/

/-- Where the wrapped item lives: a numeric container slot or a named
equipment slot (`EquipmentSlot`). -/
inductive SlotRef where
  | container (index : Nat) : SlotRef
  | equipment (slotName : String) : SlotRef
deriving DecidableEq

/-- The item's durability capability component, when present. -/
structure DurComp where
  damage : Int
  maxDurability : Int
deriving DecidableEq

/-- The item's enchantable capability component, when present: the
built-in enchantments as (type id, level) pairs. -/
structure EnchComp where
  enchantments : List (String × Int)
deriving DecidableEq

/-- The state an `ItemData` wrapper acts on: the wrapped item copy (its
dynamic properties, lore, capability components), the wrapper's slot
reference, and a count of pushes of the copy back into the player's
container/equipment (host-side inventory state beyond that count is
opaque). -/
structure ItemSt where
  props : List (String × Raw)
  lore : List String
  slot : Option SlotRef
  durability : Option DurComp
  enchantable : Option EnchComp
  pushCount : Nat
deriving DecidableEq

/-- Trace events recording the dynamic calls the claims count. -/
inductive Ev where
  | evUpdateItem : Ev
  | evUpdateLore : Ev
deriving DecidableEq

/-- The effect monad of the `ItemData` methods: state passing over
`ItemSt`, a `String`-labelled exception channel (JavaScript throws), and
an event trace (events emitted before a throw are kept). -/
def M (α : Type) : Type :=
  ItemSt → Except String (α × ItemSt) × List Ev

/-- Return a value, leaving state and trace alone. -/
def M.pure (a : α) : M α := fun s => (.ok (a, s), [])

/-- Sequence two computations, concatenating their traces; a throw in the
first skips the second. -/
def M.bind (x : M α) (f : α → M β) : M β := fun s =>
  match x s with
  | (.ok (a, s'), tr) =>
    match f a s' with
    | (r, tr') => (r, tr ++ tr')
  | (.error e, tr) => (.error e, tr)

instance : Monad M where
  pure := M.pure
  bind := M.bind

/-- Read the current state. -/
def M.get : M ItemSt := fun s => (.ok (s, s), [])

/-- Replace the current state. -/
def M.setSt (s' : ItemSt) : M Unit := fun _ => (.ok ((), s'), [])

/-- A JavaScript throw. -/
def M.throw (e : String) : M α := fun _ => (.error e, [])

/-- Record a trace event. -/
def M.emit (e : Ev) : M Unit := fun s => (.ok ((), s), [e])

/-- Lift a fallible pure computation. -/
def M.ofExcept : Except String α → M α
  | .ok a => M.pure a
  | .error e => M.throw e

/-- Lift an optional value, throwing the given label when absent. -/
def M.ofOption : Option α → String → M α
  | some a, _ => M.pure a
  | none, e => M.throw e

/-- Sequential iteration (JavaScript `for`/`forEach` loop bodies). -/
def forEachM (f : α → M Unit) : List α → M Unit
  | [] => M.pure ()
  | x :: t => M.bind (f x) (fun _ => forEachM f t)

/-- Host dynamic-property read on a property bag. -/
def getRawProp : List (String × Raw) → String → Option Raw
  | [], _ => none
  | (k, v) :: t, key => if k = key then some v else getRawProp t key

/-- Host dynamic-property write: update in place or append. -/
def setRawProp : List (String × Raw) → String → Raw → List (String × Raw)
  | [], key, v => [(key, v)]
  | (k, w) :: t, key, v => if k = key then (k, v) :: t else (k, w) :: setRawProp t key v

/-! ## `ItemData` methods -/

/-- `ItemData.updateItem` (lines 701-715): push the wrapped item copy back
into the player's inventory container or equipment slot; a no-op when the
wrapper carries no slot reference (lore-only mode). Each invocation is
recorded in the trace. -/
def ItemData.updateItem : M Unit := fun s =>
  match s.slot with
  | none => (.ok ((), s), [Ev.evUpdateItem])
  | some _ => (.ok ((), { s with pushCount := s.pushCount + 1 }), [Ev.evUpdateItem])

/-- `ItemData.getDynamicProperty` (lines 214-217). -/
def ItemData.getDynamicProperty (key : String) : M JSVal := do
  let s ← M.get
  pure (safeJsonParser (getRawProp s.props key))

/-- The raw value stored for a defined value after the
`typeof value === "object"` JSON-encoding step of `setDynamicProperty`
(`null`, arrays and plain objects have `typeof` "object"). -/
def toRaw : Json → Raw
  | .jnull => .rstr (safeJsonStringify .jnull)
  | .jarr xs => .rstr (safeJsonStringify (.jarr xs))
  | .jobj fs => .rstr (safeJsonStringify (.jobj fs))
  | .jstr s => .rstr s
  | .jnum n => .rnum n
  | .jbool b => .rbool b

/-- `ItemData.setDynamicProperty` (lines 227-233): rejects `undefined`
(`throw Error("Invalid value.")`), JSON-encodes object-typed values,
writes the raw value, then pushes the item (`this.updateItem()`). -/
def ItemData.setDynamicProperty (key : String) (value : JSVal) : M Unit := do
  match value with
  | .undef => M.throw "Invalid value."
  | .val j => do
    let s ← M.get
    M.setSt { s with props := setRawProp s.props key (toRaw j) }
    ItemData.updateItem

/-- `ItemData.getLore` (lines 243-245). -/
def ItemData.getLore : M (List String) := do
  let s ← M.get
  pure s.lore

/-- `ItemData.setLore` (lines 252-255). -/
def ItemData.setLore (lore : List String) : M Unit := do
  let s ← M.get
  M.setSt { s with lore := lore }
  ItemData.updateItem

/-- `ItemData.addLore` (lines 263-267). -/
def ItemData.addLore (lore : String) : M Unit := do
  let currentLore ← ItemData.getLore
  ItemData.setLore (currentLore ++ [lore])

/-- The `string | string[]` argument of the custom-lore mutators. -/
inductive LoreVal where
  | single (s : String) : LoreVal
  | lines (xs : List String) : LoreVal

/-- The JSON value stored for a custom-lore argument. -/
def LoreVal.toJson : LoreVal → Json
  | .single s => .jstr s
  | .lines xs => .jarr (xs.map Json.jstr)

/-- `typeof lore === "string" ? lore : lore[0]` (lines 322, 341); indexing
an empty array yields `undefined`, which as a property key is the string
"undefined". -/
def LoreVal.indexKey : LoreVal → String
  | .single s => s
  | .lines [] => "undefined"
  | .lines (x :: _) => x

/-- `ItemData.addCustomLore` (lines 320-325). -/
def ItemData.addCustomLore (lore : LoreVal) (category : Option String) : M Unit := do
  let customLore0 ← ItemData.getDynamicProperty "lore"
  let customLore := jsOr customLore0 (.val (.jobj []))
  let customLore ← M.ofExcept
    (jsSetField customLore (jsStrParamOr category lore.indexKey) lore.toJson)
  ItemData.setDynamicProperty "lore" customLore

/-- `ItemData.removeCustomLore` (lines 339-344). -/
def ItemData.removeCustomLore (lore : LoreVal) (category : Option String) : M Unit := do
  let customLore0 ← ItemData.getDynamicProperty "lore"
  let customLore := jsOr customLore0 (.val (.jobj []))
  let customLore ← M.ofExcept (jsDelete customLore (jsStrParamOr category lore.indexKey))
  ItemData.setDynamicProperty "lore" customLore

/-- `ItemData.removeAllEnchantments` (lines 438-446). When the enchantable
component is missing the method warns and returns. When it is present, the
source (line 444) reads `this.EnchantableComponent.removeAllEnchantments`
— a property access without a call, so no operation is performed on the
component — and then pushes the item. -/
def ItemData.removeAllEnchantments : M Unit := do
  let s ← M.get
  match s.enchantable with
  | none => pure ()
  | some _ => ItemData.updateItem

/-- Modelled from the spec: `EnchantmentDataT` (`../types`, not in the
source snapshot) — "mapping from enchantment name to `{name, level}`". -/
structure EnchantmentDataT where
  name : String
  level : Int

/-- The JSON object stored for an enchantment descriptor. -/
def EnchantmentDataT.toJson (e : EnchantmentDataT) : Json :=
  .jobj [("name", .jstr e.name), ("level", .jnum e.level)]

/-- Modelled from the spec: `ItemEffectDataT` (`../types`, not in the
source snapshot) — an effect descriptor with "name, level, and any
additional fields the caller supplies"; the code reads its `effect` field
in `addEffect` and its `name` and `level` fields in `updateLore`. -/
structure ItemEffectDataT where
  effect : String
  name : String
  level : Int

/-- The JSON object stored for an effect descriptor. -/
def ItemEffectDataT.toJson (e : ItemEffectDataT) : Json :=
  .jobj [("effect", .jstr e.effect), ("name", .jstr e.name), ("level", .jnum e.level)]

/-- `ItemData.getCustomEnchantments` (lines 491-493). -/
def ItemData.getCustomEnchantments : M JSVal := do
  let v ← ItemData.getDynamicProperty "enchantments"
  pure (jsOr v (.val (.jobj [])))

/-- `ItemData.getEffects` (lines 556-558). -/
def ItemData.getEffects : M JSVal := do
  let v ← ItemData.getDynamicProperty "effects"
  pure (jsOr v (.val (.jobj [])))

/-- Body of the inner `forEach` over a category's lines (lines 744-749); a
non-string element faults when `removeFormat` coerces it. -/
def loreLineBody (line : Json) : M Unit :=
  match line with
  | .jstr l => M.bind (M.ofOption (centeredBody l) "RangeError") ItemData.addLore
  | _ => M.throw "TypeError"

/-- Body of the custom-lore loop of `updateLore` (lines 735-751), for one
key of the custom-lore mapping: a string value becomes one centred line; a
list value becomes a category header followed by its centred lines; any
other value faults at the `.forEach` call. -/
def loreEntryBody (customLore : JSVal) (key : String) : M Unit := do
  match jsIndex customLore key with
  | .val (.jstr currentLore) => do
    let newTitle ← M.ofOption (centeredBody currentLore) "RangeError"
    ItemData.addLore newTitle
  | .val (.jarr lines) => do
    ItemData.addLore (catHeaderLine key)
    forEachM loreLineBody lines
  | _ => M.throw "TypeError"

/-- Body of the enchantment loop of `updateLore` (lines 755-762), with the
static title table (`EnchantmentTitles`, `../titles/EnchantmentTitles`,
external data not in the source snapshot) passed as a parameter. -/
def enchLineBody (enchantmentTitles : String → Option String) (enchantments : JSVal)
    (enchantment : String) : M Unit := do
  let enchantmentData := jsIndex enchantments enchantment
  let nameV ← M.ofExcept (jsFieldE enchantmentData "name")
  let enchantmentTitle := strOr (enchantmentTitles (jsToStr nameV)) (jsToStr nameV ++ "-failed")
  let levelV ← M.ofExcept (jsFieldE enchantmentData "level")
  let newTitle ← M.ofOption (centeredBody (enchantmentTitle ++ " " ++ jsToStr levelV)) "RangeError"
  ItemData.addLore newTitle

/-- Body of the effect loop of `updateLore` (lines 772-780), with the
static title table (`ItemEffects`, `../titles/ItemEffects`, external data
not in the source snapshot) passed as a parameter; unlike enchantment
lines, the level is not appended. -/
def effectLineBody (itemEffects : String → Option String) (effects : JSVal)
    (effect : String) : M Unit := do
  let effectData := jsIndex effects effect
  let nameV ← M.ofExcept (jsFieldE effectData "name")
  let effectTitle := strOr (itemEffects (jsToStr nameV)) (jsToStr nameV ++ "-failed")
  let newTitle ← M.ofOption (centeredBody effectTitle) "RangeError"
  ItemData.addLore newTitle

/-- The tail of `updateLore` from the effects read on (lines 766-782): the
early `return` when the effects mapping is empty — skipping the final
`updateItem` — and otherwise the "Effects" header, the effect lines, and
the closing `this.updateItem()`. -/
def updateLoreTail (itemEffects : String → Option String) (effects : JSVal) : M Unit :=
  if (forInKeys effects).length = 0 then pure ()
  else do
    ItemData.addLore effectsHeaderLine
    forEachM (effectLineBody itemEffects effects) (forInKeys effects)
    ItemData.updateItem

/-- `ItemData.updateLore` (lines 726-783), parametrised by the two static
title tables (external collaborators). Entry to the routine is recorded in
the trace (`Ev.evUpdateLore`). -/
def ItemData.updateLore (enchantmentTitles itemEffects : String → Option String) : M Unit := do
  M.emit Ev.evUpdateLore
  let enchantments ← ItemData.getCustomEnchantments
  ItemData.setLore []
  let customLore0 ← ItemData.getDynamicProperty "lore"
  let customLore := jsOr customLore0 (.val (.jobj []))
  forEachM (loreEntryBody customLore) (forInKeys customLore)
  ItemData.addLore enchantmentsHeaderLine
  forEachM (enchLineBody enchantmentTitles enchantments) (forInKeys enchantments)
  let effects ← ItemData.getEffects
  updateLoreTail itemEffects effects

/-- `ItemData.setCustomEnchantments` (lines 515-518). -/
def ItemData.setCustomEnchantments (enchantmentTitles itemEffects : String → Option String)
    (enchantments : JSVal) : M Unit := do
  ItemData.setDynamicProperty "enchantments" enchantments
  ItemData.updateLore enchantmentTitles itemEffects

/-- `ItemData.addCustomEnchantment` (lines 527-532). -/
def ItemData.addCustomEnchantment (enchantmentTitles itemEffects : String → Option String)
    (enchantment : EnchantmentDataT) : M Unit := do
  let enchantments ← ItemData.getCustomEnchantments
  let enchantments ← M.ofExcept (jsSetField enchantments enchantment.name enchantment.toJson)
  ItemData.setCustomEnchantments enchantmentTitles itemEffects enchantments

/-- `ItemData.removeCustomEnchantment` (lines 541-546). -/
def ItemData.removeCustomEnchantment (enchantmentTitles itemEffects : String → Option String)
    (enchantment : String) : M Unit := do
  let enchantments ← ItemData.getCustomEnchantments
  let enchantments ← M.ofExcept (jsDelete enchantments enchantment)
  ItemData.setCustomEnchantments enchantmentTitles itemEffects enchantments

/-- `ItemData.setEffects` (lines 567-569). -/
def ItemData.setEffects (effects : JSVal) : M Unit :=
  ItemData.setDynamicProperty "effects" effects

/-- `ItemData.addEffect` (lines 578-583): the entry is keyed by the
descriptor's `effect` field. -/
def ItemData.addEffect (effect : ItemEffectDataT) : M Unit := do
  let effects ← ItemData.getEffects
  let effects ← M.ofExcept (jsSetField effects effect.effect effect.toJson)
  ItemData.setEffects effects

/-- `ItemData.removeEffect` (lines 592-597). -/
def ItemData.removeEffect (effect : String) : M Unit := do
  let effects ← ItemData.getEffects
  let effects ← M.ofExcept (jsDelete effects effect)
  ItemData.setEffects effects

/-- The wrapper fields captured by the `ItemData` constructor. -/
structure ItemDataFields where
  item : ItemSt
  maxDurability : Int

/-- The `ItemData` constructor (lines 187-201): stores the slot reference
and, when the item has a durability component, sets the component's damage
to 0 and captures its `maxDurability`. -/
def ItemData.construct (item : ItemSt) (slot : Option SlotRef) : ItemDataFields :=
  match item.durability with
  | some d =>
    { item := { item with slot := slot, durability := some { d with damage := 0 } },
      maxDurability := d.maxDurability }
  | none => { item := { item with slot := slot }, maxDurability := 0 }

/-! ## Pure mirrors of the `updateLore` loops

Verification-layer functions computing the lines each loop body emits,
used to state and prove the run characterization of `updateLore`. -/

/-- Concatenate the line lists produced per element, stopping at the first
fault. -/
def genList (gen : α → Except String (List String)) : List α → Except String (List String)
  | [] => .ok []
  | x :: t =>
    match gen x with
    | .ok a =>
      match genList gen t with
      | .ok b => .ok (a ++ b)
      | .error e => .error e
    | .error e => .error e

/-- Pure mirror of `loreLineBody`. -/
def loreLineGen (line : Json) : Except String (List String) :=
  match line with
  | .jstr l =>
    match centeredBody l with
    | some t => .ok [t]
    | none => .error "RangeError"
  | _ => .error "TypeError"

/-- Pure mirror of `loreEntryBody`. -/
def loreEntryGen (customLore : JSVal) (key : String) : Except String (List String) :=
  match jsIndex customLore key with
  | .val (.jstr currentLore) =>
    (match centeredBody currentLore with
     | some t => .ok [t]
     | none => .error "RangeError")
  | .val (.jarr lines) =>
    (match genList loreLineGen lines with
     | .ok ls => .ok (catHeaderLine key :: ls)
     | .error e => .error e)
  | _ => .error "TypeError"

/-- Pure mirror of `enchLineBody`. -/
def enchLineGen (enchantmentTitles : String → Option String) (enchantments : JSVal)
    (enchantment : String) : Except String (List String) :=
  let enchantmentData := jsIndex enchantments enchantment
  match jsFieldE enchantmentData "name" with
  | .error e => .error e
  | .ok nameV =>
    let enchantmentTitle := strOr (enchantmentTitles (jsToStr nameV)) (jsToStr nameV ++ "-failed")
    match jsFieldE enchantmentData "level" with
    | .error e => .error e
    | .ok levelV =>
      match centeredBody (enchantmentTitle ++ " " ++ jsToStr levelV) with
      | some t => .ok [t]
      | none => .error "RangeError"

/-- Pure mirror of `effectLineBody`. -/
def effectLineGen (itemEffects : String → Option String) (effects : JSVal)
    (effect : String) : Except String (List String) :=
  let effectData := jsIndex effects effect
  match jsFieldE effectData "name" with
  | .error e => .error e
  | .ok nameV =>
    let effectTitle := strOr (itemEffects (jsToStr nameV)) (jsToStr nameV ++ "-failed")
    match centeredBody effectTitle with
    | some t => .ok [t]
    | none => .error "RangeError"

/-- The decoded value of a stored metadata property, as `updateLore` reads
it (`getDynamicProperty(key) || \x7b\x7d`). -/
def readMeta (s : ItemSt) (key : String) : JSVal :=
  jsOr (safeJsonParser (getRawProp s.props key)) (.val (.jobj []))

/-- Whether a successful `updateLore` emits the effects section (and its
final `updateItem`): 1 when the effects mapping has keys, else 0. -/
def effectsBit (s : ItemSt) : Nat :=
  if (forInKeys (readMeta s "effects")).length = 0 then 0 else 1

/-- Pure mirror of `updateLore`: the full lore block a successful run
writes, or the fault it raises. -/
def updateLoreGen (enchantmentTitles itemEffects : String → Option String)
    (s : ItemSt) : Except String (List String) :=
  let enchantments := readMeta s "enchantments"
  let customLore := readMeta s "lore"
  match genList (loreEntryGen customLore) (forInKeys customLore) with
  | .error e => .error e
  | .ok a =>
    match genList (enchLineGen enchantmentTitles enchantments) (forInKeys enchantments) with
    | .error e => .error e
    | .ok b =>
      let effects := readMeta s "effects"
      if (forInKeys effects).length = 0 then
        .ok (a ++ (enchantmentsHeaderLine :: b))
      else
        match genList (effectLineGen itemEffects effects) (forInKeys effects) with
        | .error e => .error e
        | .ok c => .ok (a ++ (enchantmentsHeaderLine :: b) ++ (effectsHeaderLine :: c))

/-- Append emitted lines to the state, as a run of `addLore` calls does:
each call pushes the item copy once (when a slot reference is present). -/
def addLines (s : ItemSt) (ls : List String) : ItemSt :=
  { s with lore := s.lore ++ ls,
           pushCount := s.pushCount + (if s.slot.isSome then ls.length else 0) }

/-- The state after a successful `updateLore` that wrote the block `L`:
lore replaced; one push for the initial clear, one per emitted line, and
one more when the effects section was emitted. -/
def updateLoreSt (s : ItemSt) (L : List String) : ItemSt :=
  { s with lore := L,
           pushCount := s.pushCount +
             (if s.slot.isSome then 1 + L.length + effectsBit s else 0) }

/-- The custom-metadata mutators quantified over by the lore-regeneration
claim: custom lore, custom enchantments and custom effects. -/
inductive MetaMutation where
  | mAddCustomLore (lore : LoreVal) (category : Option String) : MetaMutation
  | mRemoveCustomLore (lore : LoreVal) (category : Option String) : MetaMutation
  | mSetCustomEnchantments (enchantments : JSVal) : MetaMutation
  | mAddCustomEnchantment (e : EnchantmentDataT) : MetaMutation
  | mRemoveCustomEnchantment (name : String) : MetaMutation
  | mSetEffects (effects : JSVal) : MetaMutation
  | mAddEffect (e : ItemEffectDataT) : MetaMutation
  | mRemoveEffect (name : String) : MetaMutation

/-- Run a metadata mutator. -/
def runMutation (enchantmentTitles itemEffects : String → Option String) :
    MetaMutation → M Unit
  | .mAddCustomLore lore category => ItemData.addCustomLore lore category
  | .mRemoveCustomLore lore category => ItemData.removeCustomLore lore category
  | .mSetCustomEnchantments enchantments =>
    ItemData.setCustomEnchantments enchantmentTitles itemEffects enchantments
  | .mAddCustomEnchantment e => ItemData.addCustomEnchantment enchantmentTitles itemEffects e
  | .mRemoveCustomEnchantment name =>
    ItemData.removeCustomEnchantment enchantmentTitles itemEffects name
  | .mSetEffects effects => ItemData.setEffects effects
  | .mAddEffect e => ItemData.addEffect e
  | .mRemoveEffect name => ItemData.removeEffect name

/-- How many times each mutator's source code invokes `updateLore` before
returning: once for the custom-enchantment mutators, never for the
custom-lore and effect mutators. -/
def mutationLoreCalls : MetaMutation → Nat
  | .mSetCustomEnchantments _ => 1
  | .mAddCustomEnchantment _ => 1
  | .mRemoveCustomEnchantment _ => 1
  | _ => 0

/-! ## `ChestFormData` -/

/-- `const number_of_1_16_100_items = 0` (line 6). -/
def number_of_1_16_100_items : Int := 0

/-- The `ChestSize` enum (lines 11-23). -/
inductive ChestSize where
  | single | small | double | large
  | size5 | size9 | size18 | size27 | size36 | size45 | size54
deriving DecidableEq

/-- The `sizes` table (lines 28-40): title template and slot count per
size token. -/
def sizes : ChestSize → String × Nat
  | .single => ("§c§h§e§s§t§2§7§r", 27)
  | .small => ("§c§h§e§s§t§2§7§r", 27)
  | .double => ("§c§h§e§s§t§5§4§r", 54)
  | .large => ("§c§h§e§s§t§5§4§r", 54)
  | .size5 => ("§c§h§e§s§t§0§5§r", 5)
  | .size9 => ("§c§h§e§s§t§0§9§r", 9)
  | .size18 => ("§c§h§e§s§t§1§8§r", 18)
  | .size27 => ("§c§h§e§s§t§2§7§r", 27)
  | .size36 => ("§c§h§e§s§t§3§6§r", 36)
  | .size45 => ("§c§h§e§s§t§4§5§r", 45)
  | .size54 => ("§c§h§e§s§t§5§4§r", 54)

/-- `ChestFormData` (lines 45-59): the title text, the button array (item
text and icon path — a resolved numeric modifier or a raw texture path;
`none` for an untouched slot), and the slot count. -/
structure ChestFormData where
  titleText : String
  buttonArray : List (String × Option (String ⊕ Int))
  slotCount : Nat
deriving DecidableEq

/-- The `ChestFormData` constructor (lines 54-59); for the enum tokens the
`sizes` lookup always hits, so the `?? [...27]` fallback is not taken. -/
def ChestFormData.create (size : ChestSize) : ChestFormData :=
  { titleText := (sizes size).1,
    buttonArray := List.replicate (sizes size).2 ("", none),
    slotCount := (sizes size).2 }

/-- `ChestFormData.title` (lines 66-69): appends to the existing title. -/
def ChestFormData.title (f : ChestFormData) (text : String) : ChestFormData :=
  { f with titleText := f.titleText ++ text }

/-- JavaScript array assignment `arr[i] = x`: in-bounds writes replace the
element; a write past the end extends the array (skipped positions read
back as empty slots, modelled with the given hole value); a negative index
is an ordinary string property and leaves the array contents untouched. -/
def jsArraySet (l : List α) (i : Int) (x : α) (hole : α) : List α :=
  if i < 0 then l
  else if i.toNat < l.length then l.set i.toNat x
  else l ++ List.replicate (i.toNat - l.length) hole ++ [x]

/-- `String.padStart(2, '0')` as applied to the clamped stack count. -/
def padStart2 (s : String) : String :=
  if s.length < 2 then String.mk (List.replicate (2 - s.length) '0') ++ s else s

/-- `ChestFormData.button` (lines 81-104), with the two icon-id lookup
tables (`typeIdToDataId`, `typeIdToID` from `./typeIds.js`, external data
not in the source snapshot) passed as parameters; `??` tries the first
table then the second. The slot bounds check is commented out in the
source; the parameter defaults of the omitted arguments are supplied by
callers here. -/
def ChestFormData.button (typeIdToDataId typeIdToID : String → Option Int)
    (f : ChestFormData) (slot : Int) (itemName : String) (itemDesc : List String)
    (texture : String) (stackAmount : Int) (enchanted : Bool) : ChestFormData :=
  let ID : Option Int :=
    match typeIdToDataId texture with
    | some i => some i
    | none => typeIdToID texture
  let itemText := "stack#" ++ padStart2 (toString (min (max stackAmount 1) 99)) ++ "§r"
    ++ itemName
    ++ (if itemDesc.length ≠ 0 then "\n§r" ++ String.intercalate "\n§r" itemDesc else "")
  let iconPath : Option (String ⊕ Int) :=
    match ID with
    | some id => some (.inr ((id + (if id < 260 then 0 else number_of_1_16_100_items)) * 65536
        + (if enchanted then 32768 else 0)))
    | none => some (.inl texture)
  { f with buttonArray := jsArraySet f.buttonArray slot (itemText, iconPath) ("", none) }

/-- One entry of the `pattern` key mapping (line 114). -/
structure PatternData where
  itemName : Option String
  itemDesc : Option (List String)
  stackAmount : Option Int
  enchanted : Option Bool
  texture : String

/-- The inner column loop of `ChestFormData.pattern` (lines 122-130): a
character present in the key mapping whose row-major slot is below the
slot count is forwarded to `button` (absent optional fields fall back to
`button`'s parameter defaults `''`, `[]`, `1`, `false`); otherwise the
slot is left alone. -/
def patternCols (typeIdToDataId typeIdToID : String → Option Int)
    (key : String → Option PatternData) (slotCount : Nat) (rowIndex : Nat) :
    List Char → Nat → ChestFormData → ChestFormData
  | [], _, f => f
  | ch :: chs, colIndex, f =>
    let slot := colIndex + rowIndex * 9
    let f' :=
      match key (String.mk [ch]) with
      | some data =>
        if slot < slotCount then
          ChestFormData.button typeIdToDataId typeIdToID f (slot : Int)
            (data.itemName.getD "") (data.itemDesc.getD []) data.texture
            (data.stackAmount.getD 1) (data.enchanted.getD false)
        else f
      | none => f
    patternCols typeIdToDataId typeIdToID key slotCount rowIndex chs (colIndex + 1) f'

/-- The row loop of `ChestFormData.pattern` (lines 120-131). -/
def patternRows (typeIdToDataId typeIdToID : String → Option Int)
    (key : String → Option PatternData) (slotCount : Nat) :
    List String → Nat → ChestFormData → ChestFormData
  | [], _, f => f
  | row :: rows, rowIndex, f =>
    patternRows typeIdToDataId typeIdToID key slotCount rows (rowIndex + 1)
      (patternCols typeIdToDataId typeIdToID key slotCount rowIndex row.data 0 f)

/-- `ChestFormData.pattern` (lines 112-134): 9 columns per row, row-major
slots starting at 0. -/
def ChestFormData.pattern (typeIdToDataId typeIdToID : String → Option Int)
    (f : ChestFormData) (pat : List String) (key : String → Option PatternData) :
    ChestFormData :=
  patternRows typeIdToDataId typeIdToID key f.slotCount pat 0 f

/-! ## `queueForm` -/

/-- `FormCancelationReason` (host enum): why a form was cancelled. -/
inductive FormCancelationReason where
  | UserBusy : FormCancelationReason
  | UserClosed : FormCancelationReason
deriving DecidableEq

/-- The host's settlement of one `form.show(player)` call: a resolved
response (cancelled with a reason, or a selection) or a rejected
promise. -/
inductive ShowOutcome where
  | canceled (reason : FormCancelationReason) : ShowOutcome
  | selected (selection : Nat) : ShowOutcome
  | rejected (err : String) : ShowOutcome
deriving DecidableEq

/-- Observable outcome of a `queueForm` call chain: the form objects
submitted to `show` in order, the responses passed to the callback, and
the errors logged by the `.catch` handler. -/
structure QueueResult (Form : Type) where
  submissions : List Form
  callbackCalls : List ShowOutcome
  loggedErrors : List String

/-- `queueForm` (lines 152-167) run against a host that settles the
successive `show` calls with the given outcomes (an exhausted list models
a promise that never settles, after which nothing further is observable).
Each busy retry resubmits the identical `form` object. -/
def queueForm (form : Form) : List ShowOutcome → QueueResult Form
  | [] => { submissions := [form], callbackCalls := [], loggedErrors := [] }
  | outcome :: rest =>
    match outcome with
    | .rejected err =>
      { submissions := [form], callbackCalls := [], loggedErrors := [err] }
    | .canceled .UserBusy =>
      let q := queueForm form rest
      { submissions := form :: q.submissions,
        callbackCalls := q.callbackCalls,
        loggedErrors := q.loggedErrors }
    | .canceled _ =>
      { submissions := [form], callbackCalls := [], loggedErrors := [] }
    | .selected n =>
      { submissions := [form], callbackCalls := [.selected n], loggedErrors := [] }

/-! ## `WorldDataT` -/

/-- The world-scoped dynamic-property store wrapped by `WorldDataT`. -/
structure WorldSt where
  props : List (String × Raw)
deriving DecidableEq

/-- `WorldDataT.getDynamicProperty` (lines 802-805). -/
def WorldDataT.getDynamicProperty (w : WorldSt) (key : String) : JSVal :=
  safeJsonParser (getRawProp w.props key)

/-- `WorldDataT.setDynamicProperty` (lines 818-823): rejects `undefined`,
JSON-encodes object-typed values, writes the raw value (no item push at
world scope). -/
def WorldDataT.setDynamicProperty (w : WorldSt) (key : String) (value : JSVal) :
    Except String WorldSt :=
  match value with
  | .undef => .error "Invalid value."
  | .val j => .ok { props := setRawProp w.props key (toRaw j) }

/-- `m`, started in state `s`, returns `a` in state `s'` with trace `tr`. -/
def RunsOk (m : M α) (s : ItemSt) (a : α) (s' : ItemSt) (tr : List Ev) : Prop :=
  m s = (.ok (a, s'), tr)

/-- `m`, started in state `s`, throws `e` with trace `tr`. -/
def RunsErr (m : M α) (s : ItemSt) (e : String) (tr : List Ev) : Prop :=
  m s = (.error e, tr)

/-- `m`, started in state `s`, throws `e` (with some trace). -/
def RunsErrA (m : M α) (s : ItemSt) (e : String) : Prop :=
  ∃ tr, RunsErr m s e tr

/-! ## Concrete instances used by the claim theorems -/

/-- Number of leading space characters of a line (the left padding). -/
def countLeadingSpaces (s : String) : Nat :=
  (s.data.takeWhile (fun c => c = ' ')).length

/-- A trivial realization of the external title tables (every lookup
misses), for concrete runs. -/
def noTitles : String → Option String := fun _ => none

/-- A title-table realization containing the standard name "sharpness",
for concrete runs. -/
def sharpTitles : String → Option String :=
  fun name => if name = "sharpness" then some "Sharpness" else none

/-- A trivial realization of the external icon-id tables. -/
def noIconIds : String → Option Int := fun _ => none

/-- A pattern key mapping holding only the character "a". -/
def aPatternKey : String → Option PatternData :=
  fun ch => if ch = "a" then some ⟨none, none, none, none, "minecraft:stone"⟩ else none

/-- An `ItemSt` whose enchantable component holds one built-in
enchantment. -/
def sharpnessItem : ItemSt :=
  { props := [], lore := [], slot := none, durability := none,
    enchantable := some ⟨[("sharpness", 3)]⟩, pushCount := 0 }

/-- An `ItemSt` with no metadata, no components and no slot reference. -/
def emptyItem : ItemSt :=
  { props := [], lore := [], slot := none, durability := none, enchantable := none,
    pushCount := 0 }

/-- The scenario state of the lore-block claim: custom lore
`Info ↦ "Rare Item"`, one custom enchantment `sharpness ↦ {name, level 3}`,
no effects. -/
def scenarioItem : ItemSt :=
  { props := [("lore", .rstr (safeJsonStringify (.jobj [("Info", .jstr "Rare Item")]))),
              ("enchantments", .rstr (safeJsonStringify (.jobj
                [("sharpness", .jobj [("name", .jstr "sharpness"), ("level", .jnum 3)])])))],
    lore := [], slot := none, durability := none, enchantable := none, pushCount := 0 }

/-- A state whose custom-lore mapping holds one list-valued category
`Cat ↦ ["line"]`. -/
def categoryItem : ItemSt :=
  { props := [("lore", .rstr (safeJsonStringify (.jobj [("Cat", .jarr [.jstr "line"])])))],
    lore := [], slot := none, durability := none, enchantable := none, pushCount := 0 }

-- ===================================================================
-- THEOREMS
-- ===================================================================

theorem sizeJ_pos (j : Json) : 1 ≤ sizeJ j := by
  cases j <;> simp [sizeJ]

theorem sizeL_pos (xs : List Json) : 1 ≤ sizeL xs := by
  cases xs with
  | nil => simp [sizeL]
  | cons j t => have := sizeJ_pos j; simp [sizeL]; omega

theorem sizeO_pos (fs : List (String × Json)) : 1 ≤ sizeO fs := by
  cases fs with
  | nil => simp [sizeO]
  | cons f t => have := sizeJ_pos f.2; simp [sizeO]; omega

theorem decNatU_encNatU (n : Nat) (rest : List Char) :
    decNatU (encNatU n ++ rest) = some (n, rest) := by
  induction n with
  | zero => simp [encNatU, decNatU]
  | succ k ih => simp [encNatU, List.replicate_succ, decNatU] at ih ⊢; simp [ih]

theorem decStr_encStr (s : String) (rest : List Char) :
    decStr (encStr s ++ rest) = some (s, rest) := by
  cases s with
  | mk data => simp [encStr, decStr, decNatU_encNatU, String.length]

theorem decInt_encInt (n : Int) (rest : List Char) :
    decInt (encInt n ++ rest) = some (n, rest) := by
  by_cases h : n < 0
  · simp [encInt, h, decInt, decNatU_encNatU]
    rw [abs_of_neg h]; ring
  · simp [encInt, h, decInt, decNatU_encNatU]
    omega

theorem encJson_head (j : Json) :
    ∃ c cs, encJson j = c :: cs ∧ c ≠ ';' := by
  cases j with
  | jnull => exact ⟨'N', [], rfl, by decide⟩
  | jbool b => cases b with
    | true => exact ⟨'T', [], rfl, by decide⟩
    | false => exact ⟨'F', [], rfl, by decide⟩
  | jnum n => exact ⟨'I', encInt n, rfl, by decide⟩
  | jstr s => exact ⟨'S', encStr s, rfl, by decide⟩
  | jarr xs => exact ⟨'A', encJsonList xs, rfl, by decide⟩
  | jobj fs => exact ⟨'O', encJsonFields fs, rfl, by decide⟩

theorem encStr_head (s : String) :
    ∃ c cs, encStr s = c :: cs ∧ c ≠ ';' := by
  cases hn : s.length with
  | zero => exact ⟨'0', s.data, by simp [encStr, encNatU, hn], by decide⟩
  | succ k =>
    refine ⟨'1', List.replicate k '1' ++ ['0'] ++ s.data, ?_, by decide⟩
    simp [encStr, encNatU, hn, List.replicate_succ]

mutual
theorem pstep_encJson (j : Json) : ∀ (fuel : Nat) (rest : List Char),
    sizeJ j ≤ fuel → pstep fuel .pj (encJson j ++ rest) = some (.rj j, rest) := by
  intro fuel rest h
  have hf : 1 ≤ fuel := Nat.le_trans (sizeJ_pos j) h
  obtain ⟨f, rfl⟩ : ∃ f, fuel = f + 1 := ⟨fuel - 1, by omega⟩
  cases j with
  | jnull => simp [encJson, pstep]
  | jbool b => cases b <;> simp [encJson, pstep]
  | jnum n => simp [encJson, pstep, decInt_encInt]
  | jstr s => simp [encJson, pstep, decStr_encStr]
  | jarr xs =>
    have hx : sizeL xs ≤ f := by simp [sizeJ] at h; omega
    simp [encJson, pstep, pstep_encJsonList xs f rest hx]
  | jobj fs =>
    have hx : sizeO fs ≤ f := by simp [sizeJ] at h; omega
    simp [encJson, pstep, pstep_encJsonFields fs f rest hx]

theorem pstep_encJsonList (xs : List Json) : ∀ (fuel : Nat) (rest : List Char),
    sizeL xs ≤ fuel → pstep fuel .plist (encJsonList xs ++ rest) = some (.rlist xs, rest) := by
  intro fuel rest h
  have hf : 1 ≤ fuel := Nat.le_trans (sizeL_pos xs) h
  obtain ⟨f, rfl⟩ : ∃ f, fuel = f + 1 := ⟨fuel - 1, by omega⟩
  cases xs with
  | nil => simp [encJsonList, pstep]
  | cons j t =>
    have hj : sizeJ j ≤ f := by
      have := sizeL_pos t; simp [sizeL] at h; omega
    have ht : sizeL t ≤ f := by
      have := sizeJ_pos j; simp [sizeL] at h; omega
    obtain ⟨c, cs, hc, hcne⟩ := encJson_head j
    have hsplit : encJsonList (j :: t) ++ rest = c :: (cs ++ (encJsonList t ++ rest)) := by
      simp [encJsonList, hc]
    rw [hsplit]
    have h1 : pstep f .pj (c :: (cs ++ (encJsonList t ++ rest)))
        = some (.rj j, encJsonList t ++ rest) := by
      have : c :: (cs ++ (encJsonList t ++ rest)) = encJson j ++ (encJsonList t ++ rest) := by
        simp [hc]
      rw [this]
      exact pstep_encJson j f _ hj
    simp [pstep, hcne, h1, pstep_encJsonList t f rest ht]

theorem pstep_encJsonFields (fs : List (String × Json)) : ∀ (fuel : Nat) (rest : List Char),
    sizeO fs ≤ fuel → pstep fuel .pfields (encJsonFields fs ++ rest) = some (.rfields fs, rest) := by
  intro fuel rest h
  have hf : 1 ≤ fuel := Nat.le_trans (sizeO_pos fs) h
  obtain ⟨f, rfl⟩ : ∃ f, fuel = f + 1 := ⟨fuel - 1, by omega⟩
  cases fs with
  | nil => simp [encJsonFields, pstep]
  | cons kv t =>
    obtain ⟨k, v⟩ := kv
    have hv : sizeJ v ≤ f := by
      have := sizeO_pos t; simp [sizeO] at h; omega
    have ht : sizeO t ≤ f := by
      have := sizeJ_pos v; simp [sizeO] at h; omega
    obtain ⟨c, cs, hc, hcne⟩ := encStr_head k
    have hsplit : encJsonFields ((k, v) :: t) ++ rest
        = c :: (cs ++ (encJson v ++ (encJsonFields t ++ rest))) := by
      simp [encJsonFields, hc]
    rw [hsplit]
    have h1 : decStr (c :: (cs ++ (encJson v ++ (encJsonFields t ++ rest))))
        = some (k, encJson v ++ (encJsonFields t ++ rest)) := by
      have : c :: (cs ++ (encJson v ++ (encJsonFields t ++ rest)))
          = encStr k ++ (encJson v ++ (encJsonFields t ++ rest)) := by
        simp [hc]
      rw [this]
      exact decStr_encStr k _
    simp [pstep, hcne, h1, pstep_encJson v f _ hv, pstep_encJsonFields t f rest ht]
end

mutual
theorem sizeJ_le_encJson_length (j : Json) : sizeJ j ≤ (encJson j).length := by
  cases j with
  | jnull => simp [sizeJ, encJson]
  | jbool b => cases b <;> simp [sizeJ, encJson]
  | jnum n => simp [sizeJ, encJson]
  | jstr s => simp [sizeJ, encJson]
  | jarr xs =>
    have := sizeL_le_encJsonList_length xs
    simp [sizeJ, encJson]; omega
  | jobj fs =>
    have := sizeO_le_encJsonFields_length fs
    simp [sizeJ, encJson]; omega

theorem sizeL_le_encJsonList_length (xs : List Json) : sizeL xs ≤ (encJsonList xs).length := by
  cases xs with
  | nil => simp [sizeL, encJsonList]
  | cons j t =>
    have h1 := sizeJ_le_encJson_length j
    have h2 := sizeL_le_encJsonList_length t
    simp [sizeL, encJsonList]; omega

theorem sizeO_le_encJsonFields_length (fs : List (String × Json)) :
    sizeO fs ≤ (encJsonFields fs).length := by
  cases fs with
  | nil => simp [sizeO, encJsonFields]
  | cons kv t =>
    obtain ⟨k, v⟩ := kv
    have h1 := sizeJ_le_encJson_length v
    have h2 := sizeO_le_encJsonFields_length t
    simp [sizeO, encJsonFields]; omega
end

/-- The spec's transparency contract for the modelled JSON codec: decoding
an encoded value returns it. -/
theorem decodeJson_encJson (j : Json) : decodeJson (safeJsonStringify j) = some j := by
  have hb := sizeJ_le_encJson_length j
  have h := pstep_encJson j ((encJson j).length + 1) [] (by omega)
  simp at h
  simp [decodeJson, safeJsonStringify, h]

/-- Parsing the raw string stored for an object value recovers the value. -/
theorem safeJsonParser_stringify (j : Json) :
    safeJsonParser (some (.rstr (safeJsonStringify j))) = .val j := by
  simp [safeJsonParser, decodeJson_encJson]

/-! ### Monad run lemmas -/

theorem runsOk_bind {α β : Type} {x : M α} {f : α → M β} {s s₁ s₂ : ItemSt}
    {a : α} {b : β} {t₁ t₂ : List Ev}
    (h1 : RunsOk x s a s₁ t₁) (h2 : RunsOk (f a) s₁ b s₂ t₂) :
    RunsOk (x >>= f) s b s₂ (t₁ ++ t₂) := by
  show M.bind x f s = (.ok (b, s₂), t₁ ++ t₂)
  unfold M.bind
  rw [show x s = (.ok (a, s₁), t₁) from h1]
  dsimp only
  rw [show f a s₁ = (.ok (b, s₂), t₂) from h2]

theorem runsErr_bind {α β : Type} {x : M α} {f : α → M β} {s : ItemSt}
    {e : String} {t : List Ev}
    (h : RunsErr x s e t) : RunsErr (x >>= f) s e t := by
  show M.bind x f s = (.error e, t)
  unfold M.bind
  rw [show x s = (.error e, t) from h]

theorem runsOk_bind_err {α β : Type} {x : M α} {f : α → M β} {s s₁ : ItemSt}
    {a : α} {e : String} {t₁ t₂ : List Ev}
    (h1 : RunsOk x s a s₁ t₁) (h2 : RunsErr (f a) s₁ e t₂) :
    RunsErr (x >>= f) s e (t₁ ++ t₂) := by
  show M.bind x f s = (.error e, t₁ ++ t₂)
  unfold M.bind
  rw [show x s = (.ok (a, s₁), t₁) from h1]
  dsimp only
  rw [show f a s₁ = (.error e, t₂) from h2]

theorem runsOk_pure {α : Type} (a : α) (s : ItemSt) :
    RunsOk (pure a : M α) s a s [] := rfl

theorem runsOk_get (s : ItemSt) : RunsOk M.get s s s [] := rfl

theorem runsOk_setSt (s s' : ItemSt) : RunsOk (M.setSt s') s () s' [] := rfl

theorem runsOk_emit (s : ItemSt) (e : Ev) : RunsOk (M.emit e) s () s [e] := rfl

theorem runsErr_throw {α : Type} (s : ItemSt) (e : String) :
    RunsErr (M.throw e : M α) s e [] := rfl

theorem runsOk_ofExcept {α : Type} {x : Except String α} {a : α} (s : ItemSt)
    (h : x = .ok a) : RunsOk (M.ofExcept x) s a s [] := by
  subst h; rfl

theorem runsErr_ofExcept {α : Type} {x : Except String α} {e : String} (s : ItemSt)
    (h : x = .error e) : RunsErr (M.ofExcept x : M α) s e [] := by
  subst h; rfl

theorem runsOk_ofOption {α : Type} {x : Option α} {a : α} (s : ItemSt) (e : String)
    (h : x = some a) : RunsOk (M.ofOption x e) s a s [] := by
  subst h; rfl

theorem runsErr_ofOption {α : Type} {x : Option α} (s : ItemSt) (e : String)
    (h : x = none) : RunsErr (M.ofOption x e : M α) s e [] := by
  subst h; rfl

/-! ### Run lemmas for the `ItemData` primitives -/

theorem bind_def {α β : Type} (x : M α) (f : α → M β) : x >>= f = M.bind x f := rfl

theorem pure_def {α : Type} (a : α) : (pure a : M α) = M.pure a := rfl

theorem updateItem_runs (s : ItemSt) :
    RunsOk ItemData.updateItem s ()
      { s with pushCount := s.pushCount + (if s.slot.isSome then 1 else 0) }
      [Ev.evUpdateItem] := by
  obtain ⟨props, lore, slot, durability, enchantable, pushCount⟩ := s
  cases slot <;> simp [RunsOk, ItemData.updateItem]

theorem getLore_runs (s : ItemSt) : RunsOk ItemData.getLore s s.lore s [] := rfl

theorem setLore_runs (L : List String) (s : ItemSt) :
    RunsOk (ItemData.setLore L) s ()
      { s with lore := L, pushCount := s.pushCount + (if s.slot.isSome then 1 else 0) }
      [Ev.evUpdateItem] := by
  obtain ⟨props, lore, slot, durability, enchantable, pushCount⟩ := s
  cases slot <;>
    simp [RunsOk, ItemData.setLore, bind_def, M.bind, M.get, M.setSt, ItemData.updateItem]

theorem addLore_runs (l : String) (s : ItemSt) :
    RunsOk (ItemData.addLore l) s () (addLines s [l]) [Ev.evUpdateItem] := by
  obtain ⟨props, lore, slot, durability, enchantable, pushCount⟩ := s
  cases slot <;>
    simp [RunsOk, ItemData.addLore, ItemData.getLore, ItemData.setLore, bind_def, pure_def,
      M.bind, M.pure, M.get, M.setSt, ItemData.updateItem, addLines]

theorem getDynamicProperty_runs (key : String) (s : ItemSt) :
    RunsOk (ItemData.getDynamicProperty key) s
      (safeJsonParser (getRawProp s.props key)) s [] := rfl

theorem setDynamicProperty_runs_val (key : String) (j : Json) (s : ItemSt) :
    RunsOk (ItemData.setDynamicProperty key (.val j)) s ()
      { s with props := setRawProp s.props key (toRaw j),
               pushCount := s.pushCount + (if s.slot.isSome then 1 else 0) }
      [Ev.evUpdateItem] := by
  obtain ⟨props, lore, slot, durability, enchantable, pushCount⟩ := s
  cases slot <;>
    simp [RunsOk, ItemData.setDynamicProperty, bind_def, M.bind, M.get, M.setSt,
      ItemData.updateItem]

theorem setDynamicProperty_runs_undef (key : String) (s : ItemSt) :
    RunsErr (ItemData.setDynamicProperty key .undef) s "Invalid value." [] := rfl

theorem getCustomEnchantments_runs (s : ItemSt) :
    RunsOk ItemData.getCustomEnchantments s (readMeta s "enchantments") s [] := rfl

theorem getEffects_runs (s : ItemSt) :
    RunsOk ItemData.getEffects s (readMeta s "effects") s [] := rfl

/-! ### `addLines` algebra -/

theorem addLines_slot (s : ItemSt) (ls : List String) : (addLines s ls).slot = s.slot := rfl

theorem addLines_props (s : ItemSt) (ls : List String) : (addLines s ls).props = s.props := rfl

theorem addLines_nil (s : ItemSt) : addLines s [] = s := by
  cases s; simp [addLines]

theorem addLines_addLines (s : ItemSt) (a b : List String) :
    addLines (addLines s a) b = addLines s (a ++ b) := by
  cases s with
  | mk props lore slot durability enchantable pushCount =>
    simp only [addLines]
    cases slot <;> simp <;> omega

theorem runsOk_congr {α : Type} {m : M α} {s s₁ s₂ : ItemSt} {a : α} {t₁ t₂ : List Ev}
    (h : RunsOk m s a s₁ t₁) (hs : s₁ = s₂) (ht : t₁ = t₂) : RunsOk m s a s₂ t₂ := by
  subst hs; subst ht; exact h

/-- Run characterization of a `forEachM` loop whose body appends the lines
its pure mirror computes (one item push per line), or faults as the mirror
does. -/
theorem forEachM_runs {α : Type} (f : α → M Unit) (gen : α → Except String (List String))
    (hok : ∀ x s ls, gen x = .ok ls →
      RunsOk (f x) s () (addLines s ls) (List.replicate ls.length Ev.evUpdateItem))
    (herr : ∀ x s e, gen x = .error e → ∃ tr, RunsErr (f x) s e tr) :
    ∀ (xs : List α) (s : ItemSt),
      (∀ ls, genList gen xs = .ok ls →
        RunsOk (forEachM f xs) s () (addLines s ls)
          (List.replicate ls.length Ev.evUpdateItem)) ∧
      (∀ e, genList gen xs = .error e → ∃ tr, RunsErr (forEachM f xs) s e tr) := by
  intro xs
  induction xs with
  | nil =>
    intro s
    constructor
    · intro ls hls
      simp [genList] at hls
      subst hls
      rw [addLines_nil]
      exact rfl
    · intro e he
      simp [genList] at he
  | cons x t ih =>
    intro s
    constructor
    · intro ls hls
      cases hx : gen x with
      | error e => simp [genList, hx] at hls
      | ok a =>
        cases ht : genList gen t with
        | error e => simp [genList, hx, ht] at hls
        | ok b =>
          simp [genList, hx, ht] at hls
          subst hls
          have h1 := hok x s a hx
          have h2 := (ih (addLines s a)).1 b ht
          exact runsOk_congr (runsOk_bind h1 h2) (addLines_addLines s a b)
            (by rw [← List.replicate_add, List.length_append])
    · intro e he
      cases hx : gen x with
      | error e' =>
        simp [genList, hx] at he
        subst he
        obtain ⟨tr, htr⟩ := herr x s e' hx
        exact ⟨tr, runsErr_bind htr⟩
      | ok a =>
        cases ht : genList gen t with
        | ok b => simp [genList, hx, ht] at he
        | error e' =>
          simp [genList, hx, ht] at he
          subst he
          have h1 := hok x s a hx
          obtain ⟨tr, htr⟩ := (ih (addLines s a)).2 e' ht
          exact ⟨List.replicate a.length Ev.evUpdateItem ++ tr, runsOk_bind_err h1 htr⟩

/-! ### The loop bodies against their pure mirrors -/

theorem loreLineBody_runs_ok (line : Json) (s : ItemSt) (ls : List String)
    (h : loreLineGen line = .ok ls) :
    RunsOk (loreLineBody line) s () (addLines s ls)
      (List.replicate ls.length Ev.evUpdateItem) := by
  cases line with
  | jstr l =>
    cases hc : centeredBody l with
    | none => simp [loreLineGen, hc] at h
    | some t =>
      simp [loreLineGen, hc] at h
      subst h
      have := runsOk_congr
        (runsOk_bind (runsOk_ofOption s "RangeError" hc) (addLore_runs t s)) rfl rfl
      simpa [loreLineBody] using this
  | jnull => simp [loreLineGen] at h
  | jbool b => simp [loreLineGen] at h
  | jnum n => simp [loreLineGen] at h
  | jarr xs => simp [loreLineGen] at h
  | jobj fs => simp [loreLineGen] at h

theorem loreLineBody_runs_err (line : Json) (s : ItemSt) (e : String)
    (h : loreLineGen line = .error e) :
    ∃ tr, RunsErr (loreLineBody line) s e tr := by
  cases line with
  | jstr l =>
    cases hc : centeredBody l with
    | some t => simp [loreLineGen, hc] at h
    | none =>
      simp [loreLineGen, hc] at h
      subst h
      exact ⟨[], runsErr_bind (runsErr_ofOption s "RangeError" hc)⟩
  | jnull => simp [loreLineGen] at h; subst h; exact ⟨[], rfl⟩
  | jbool b => simp [loreLineGen] at h; subst h; exact ⟨[], rfl⟩
  | jnum n => simp [loreLineGen] at h; subst h; exact ⟨[], rfl⟩
  | jarr xs => simp [loreLineGen] at h; subst h; exact ⟨[], rfl⟩
  | jobj fs => simp [loreLineGen] at h; subst h; exact ⟨[], rfl⟩

theorem loreEntryBody_runs_ok (customLore : JSVal) (key : String) (s : ItemSt)
    (ls : List String) (h : loreEntryGen customLore key = .ok ls) :
    RunsOk (loreEntryBody customLore key) s () (addLines s ls)
      (List.replicate ls.length Ev.evUpdateItem) := by
  unfold loreEntryGen at h
  unfold loreEntryBody
  cases hidx : jsIndex customLore key with
  | undef => rw [hidx] at h; simp at h
  | val j =>
    rw [hidx] at h
    cases j with
    | jstr currentLore =>
      cases hc : centeredBody currentLore with
      | none => simp [hc] at h
      | some t =>
        simp [hc] at h
        subst h
        have := runsOk_bind (runsOk_ofOption s "RangeError" hc) (addLore_runs t s)
        simpa using this
    | jarr lines =>
      cases hg : genList loreLineGen lines with
      | error e => simp [hg] at h
      | ok ls' =>
        simp [hg] at h
        subst h
        have h1 := addLore_runs (catHeaderLine key) s
        have h2 := (forEachM_runs loreLineBody loreLineGen loreLineBody_runs_ok
          loreLineBody_runs_err lines (addLines s [catHeaderLine key])).1 ls' hg
        refine runsOk_congr (runsOk_bind h1 h2) ?_ ?_
        · rw [addLines_addLines]; rfl
        · simp [List.replicate_succ]
    | jnull => simp at h
    | jbool b => simp at h
    | jnum n => simp at h
    | jobj fs => simp at h

theorem loreEntryBody_runs_err (customLore : JSVal) (key : String) (s : ItemSt)
    (e : String) (h : loreEntryGen customLore key = .error e) :
    ∃ tr, RunsErr (loreEntryBody customLore key) s e tr := by
  unfold loreEntryGen at h
  unfold loreEntryBody
  cases hidx : jsIndex customLore key with
  | undef =>
    rw [hidx] at h
    simp at h
    subst h
    exact ⟨[], rfl⟩
  | val j =>
    rw [hidx] at h
    cases j with
    | jstr currentLore =>
      cases hc : centeredBody currentLore with
      | some t => simp [hc] at h
      | none =>
        simp [hc] at h
        subst h
        exact ⟨[], runsErr_bind (runsErr_ofOption s "RangeError" hc)⟩
    | jarr lines =>
      cases hg : genList loreLineGen lines with
      | ok ls' => simp [hg] at h
      | error e' =>
        simp [hg] at h
        subst h
        have h1 := addLore_runs (catHeaderLine key) s
        obtain ⟨tr, htr⟩ := (forEachM_runs loreLineBody loreLineGen loreLineBody_runs_ok
          loreLineBody_runs_err lines (addLines s [catHeaderLine key])).2 e' hg
        exact ⟨[Ev.evUpdateItem] ++ tr, runsOk_bind_err h1 htr⟩
    | jnull => simp at h; subst h; exact ⟨[], rfl⟩
    | jbool b => simp at h; subst h; exact ⟨[], rfl⟩
    | jnum n => simp at h; subst h; exact ⟨[], rfl⟩
    | jobj fs => simp at h; subst h; exact ⟨[], rfl⟩

theorem enchLineBody_runs_ok (enchantmentTitles : String → Option String)
    (enchantments : JSVal) (enchantment : String) (s : ItemSt) (ls : List String)
    (h : enchLineGen enchantmentTitles enchantments enchantment = .ok ls) :
    RunsOk (enchLineBody enchantmentTitles enchantments enchantment) s ()
      (addLines s ls) (List.replicate ls.length Ev.evUpdateItem) := by
  unfold enchLineGen at h
  unfold enchLineBody
  dsimp only at h ⊢
  cases hname : jsFieldE (jsIndex enchantments enchantment) "name" with
  | error e => rw [hname] at h; simp at h
  | ok nameV =>
    rw [hname] at h
    cases hlevel : jsFieldE (jsIndex enchantments enchantment) "level" with
    | error e => rw [hlevel] at h; simp at h
    | ok levelV =>
      rw [hlevel] at h
      cases hc : centeredBody
          (strOr (enchantmentTitles (jsToStr nameV)) (jsToStr nameV ++ "-failed")
            ++ " " ++ jsToStr levelV) with
      | none => simp [hc] at h
      | some t =>
        simp [hc] at h
        subst h
        obtain ⟨props, lore, slot, durability, enchantable, pushCount⟩ := s
        cases slot <;>
          simp [RunsOk, bind_def, pure_def, M.bind, M.pure, M.ofExcept, M.ofOption, hc,
            ItemData.addLore, ItemData.getLore, ItemData.setLore, M.get, M.setSt,
            ItemData.updateItem, addLines]

theorem enchLineBody_runs_err (enchantmentTitles : String → Option String)
    (enchantments : JSVal) (enchantment : String) (s : ItemSt) (e : String)
    (h : enchLineGen enchantmentTitles enchantments enchantment = .error e) :
    ∃ tr, RunsErr (enchLineBody enchantmentTitles enchantments enchantment) s e tr := by
  unfold enchLineGen at h
  unfold enchLineBody
  dsimp only at h ⊢
  cases hname : jsFieldE (jsIndex enchantments enchantment) "name" with
  | error e' =>
    rw [hname] at h
    simp at h
    subst h
    exact ⟨[], rfl⟩
  | ok nameV =>
    rw [hname] at h
    cases hlevel : jsFieldE (jsIndex enchantments enchantment) "level" with
    | error e' =>
      rw [hlevel] at h
      simp at h
      subst h
      exact ⟨[], rfl⟩
    | ok levelV =>
      rw [hlevel] at h
      cases hc : centeredBody
          (strOr (enchantmentTitles (jsToStr nameV)) (jsToStr nameV ++ "-failed")
            ++ " " ++ jsToStr levelV) with
      | some t => simp [hc] at h
      | none =>
        simp [hc] at h
        subst h
        refine ⟨[], ?_⟩
        obtain ⟨props, lore, slot, durability, enchantable, pushCount⟩ := s
        simp [RunsErr, bind_def, pure_def, M.bind, M.pure, M.ofExcept, M.ofOption, hc, M.throw]

theorem effectLineBody_runs_ok (itemEffects : String → Option String)
    (effects : JSVal) (effect : String) (s : ItemSt) (ls : List String)
    (h : effectLineGen itemEffects effects effect = .ok ls) :
    RunsOk (effectLineBody itemEffects effects effect) s ()
      (addLines s ls) (List.replicate ls.length Ev.evUpdateItem) := by
  unfold effectLineGen at h
  unfold effectLineBody
  dsimp only at h ⊢
  cases hname : jsFieldE (jsIndex effects effect) "name" with
  | error e => rw [hname] at h; simp at h
  | ok nameV =>
    rw [hname] at h
    cases hc : centeredBody
        (strOr (itemEffects (jsToStr nameV)) (jsToStr nameV ++ "-failed")) with
    | none => simp [hc] at h
    | some t =>
      simp [hc] at h
      subst h
      obtain ⟨props, lore, slot, durability, enchantable, pushCount⟩ := s
      cases slot <;>
        simp [RunsOk, bind_def, pure_def, M.bind, M.pure, M.ofExcept, M.ofOption, hc,
          ItemData.addLore, ItemData.getLore, ItemData.setLore, M.get, M.setSt,
          ItemData.updateItem, addLines]

theorem effectLineBody_runs_err (itemEffects : String → Option String)
    (effects : JSVal) (effect : String) (s : ItemSt) (e : String)
    (h : effectLineGen itemEffects effects effect = .error e) :
    ∃ tr, RunsErr (effectLineBody itemEffects effects effect) s e tr := by
  unfold effectLineGen at h
  unfold effectLineBody
  dsimp only at h ⊢
  cases hname : jsFieldE (jsIndex effects effect) "name" with
  | error e' =>
    rw [hname] at h
    simp at h
    subst h
    exact ⟨[], rfl⟩
  | ok nameV =>
    rw [hname] at h
    cases hc : centeredBody
        (strOr (itemEffects (jsToStr nameV)) (jsToStr nameV ++ "-failed")) with
    | some t => simp [hc] at h
    | none =>
      simp [hc] at h
      subst h
      refine ⟨[], ?_⟩
      obtain ⟨props, lore, slot, durability, enchantable, pushCount⟩ := s
      simp [RunsErr, bind_def, pure_def, M.bind, M.pure, M.ofExcept, M.ofOption, hc, M.throw]

/-! ### Run characterization of `updateLore` -/

theorem updateLoreTail_runs_empty (itemEffects : String → Option String)
    (effects : JSVal) (s : ItemSt) (h : (forInKeys effects).length = 0) :
    RunsOk (updateLoreTail itemEffects effects) s () s [] := by
  unfold updateLoreTail
  rw [if_pos h]
  exact runsOk_pure () s

theorem updateLoreTail_runs_nonempty (itemEffects : String → Option String)
    (effects : JSVal) (s : ItemSt) (c : List String)
    (h : ¬ (forInKeys effects).length = 0)
    (hC : genList (effectLineGen itemEffects effects) (forInKeys effects) = .ok c) :
    RunsOk (updateLoreTail itemEffects effects) s ()
      { s with lore := s.lore ++ (effectsHeaderLine :: c),
               pushCount := s.pushCount +
                 (if s.slot.isSome then (effectsHeaderLine :: c).length + 1 else 0) }
      (List.replicate ((effectsHeaderLine :: c).length + 1) Ev.evUpdateItem) := by
  unfold updateLoreTail
  rw [if_neg h]
  refine runsOk_congr
    (runsOk_bind (addLore_runs effectsHeaderLine s)
      (runsOk_bind
        ((forEachM_runs (effectLineBody itemEffects effects) (effectLineGen itemEffects effects)
          (effectLineBody_runs_ok itemEffects effects) (effectLineBody_runs_err itemEffects effects)
          (forInKeys effects) (addLines s [effectsHeaderLine])).1 c hC)
        (updateItem_runs (addLines (addLines s [effectsHeaderLine]) c)))) ?_ ?_
  · rw [addLines_addLines]
    obtain ⟨props, lore, slot, durability, enchantable, pushCount⟩ := s
    cases slot <;> simp [addLines] <;> omega
  · simp only [List.cons_append, List.nil_append, List.length_cons,
      ← List.replicate_succ', ← List.replicate_succ]

theorem updateLoreTail_runs_err (itemEffects : String → Option String)
    (effects : JSVal) (s : ItemSt) (e : String)
    (h : ¬ (forInKeys effects).length = 0)
    (hC : genList (effectLineGen itemEffects effects) (forInKeys effects) = .error e) :
    ∃ tr, RunsErr (updateLoreTail itemEffects effects) s e tr := by
  unfold updateLoreTail
  rw [if_neg h]
  obtain ⟨tr, htr⟩ := (forEachM_runs (effectLineBody itemEffects effects)
    (effectLineGen itemEffects effects) (effectLineBody_runs_ok itemEffects effects)
    (effectLineBody_runs_err itemEffects effects)
    (forInKeys effects) (addLines s [effectsHeaderLine])).2 e hC
  exact ⟨_, runsOk_bind_err (addLore_runs effectsHeaderLine s) (runsErr_bind htr)⟩

theorem updateLore_runs_ok (enchantmentTitles itemEffects : String → Option String)
    (s : ItemSt) (L : List String) (h : updateLoreGen enchantmentTitles itemEffects s = .ok L) :
    RunsOk (ItemData.updateLore enchantmentTitles itemEffects) s () (updateLoreSt s L)
      (Ev.evUpdateLore :: List.replicate (1 + L.length + effectsBit s) Ev.evUpdateItem) := by
  unfold updateLoreGen at h
  dsimp only at h
  unfold ItemData.updateLore
  cases hA : genList (loreEntryGen (readMeta s "lore")) (forInKeys (readMeta s "lore")) with
  | error e => rw [hA] at h; simp at h
  | ok a =>
    rw [hA] at h
    cases hB : genList (enchLineGen enchantmentTitles (readMeta s "enchantments"))
        (forInKeys (readMeta s "enchantments")) with
    | error e => rw [hB] at h; simp at h
    | ok b =>
      rw [hB] at h
      dsimp only at h
      by_cases heff : (forInKeys (readMeta s "effects")).length = 0
      · rw [if_pos heff] at h
        simp at h
        subst h
        refine runsOk_congr
          (runsOk_bind (runsOk_emit s Ev.evUpdateLore)
            (runsOk_bind (getCustomEnchantments_runs s)
              (runsOk_bind (setLore_runs [] s)
                (runsOk_bind (getDynamicProperty_runs "lore" _)
                  (runsOk_bind
                    ((forEachM_runs (loreEntryBody (readMeta s "lore"))
                      (loreEntryGen (readMeta s "lore"))
                      (loreEntryBody_runs_ok (readMeta s "lore"))
                      (loreEntryBody_runs_err (readMeta s "lore"))
                      (forInKeys (readMeta s "lore")) _).1 a hA)
                    (runsOk_bind (addLore_runs enchantmentsHeaderLine _)
                      (runsOk_bind
                        ((forEachM_runs (enchLineBody enchantmentTitles (readMeta s "enchantments"))
                          (enchLineGen enchantmentTitles (readMeta s "enchantments"))
                          (enchLineBody_runs_ok enchantmentTitles (readMeta s "enchantments"))
                          (enchLineBody_runs_err enchantmentTitles (readMeta s "enchantments"))
                          (forInKeys (readMeta s "enchantments")) _).1 b hB)
                        (runsOk_bind (getEffects_runs _)
                          (updateLoreTail_runs_empty itemEffects (readMeta s "effects") _
                            heff))))))))) ?_ ?_
        · rw [addLines_addLines, addLines_addLines]
          obtain ⟨props, lore, slot, durability, enchantable, pushCount⟩ := s
          unfold updateLoreSt effectsBit at *
          cases slot <;> simp [addLines, heff] at * <;> omega
        · simp only [List.append_assoc, List.cons_append, List.nil_append,
            List.singleton_append]
          congr 1
          refine List.eq_replicate_iff.mpr ⟨?_, ?_⟩
          · simp [effectsBit, heff]
            omega
          · intro x hx
            simp [List.mem_append, List.mem_cons, List.mem_replicate] at hx
            tauto
      · rw [if_neg heff] at h
        cases hC : genList (effectLineGen itemEffects (readMeta s "effects"))
            (forInKeys (readMeta s "effects")) with
        | error e => rw [hC] at h; simp at h
        | ok c =>
          rw [hC] at h
          simp at h
          subst h
          refine runsOk_congr
            (runsOk_bind (runsOk_emit s Ev.evUpdateLore)
              (runsOk_bind (getCustomEnchantments_runs s)
                (runsOk_bind (setLore_runs [] s)
                  (runsOk_bind (getDynamicProperty_runs "lore" _)
                    (runsOk_bind
                      ((forEachM_runs (loreEntryBody (readMeta s "lore"))
                        (loreEntryGen (readMeta s "lore"))
                        (loreEntryBody_runs_ok (readMeta s "lore"))
                        (loreEntryBody_runs_err (readMeta s "lore"))
                        (forInKeys (readMeta s "lore")) _).1 a hA)
                      (runsOk_bind (addLore_runs enchantmentsHeaderLine _)
                        (runsOk_bind
                          ((forEachM_runs (enchLineBody enchantmentTitles (readMeta s "enchantments"))
                            (enchLineGen enchantmentTitles (readMeta s "enchantments"))
                            (enchLineBody_runs_ok enchantmentTitles (readMeta s "enchantments"))
                            (enchLineBody_runs_err enchantmentTitles (readMeta s "enchantments"))
                            (forInKeys (readMeta s "enchantments")) _).1 b hB)
                          (runsOk_bind (getEffects_runs _)
                            (updateLoreTail_runs_nonempty itemEffects (readMeta s "effects") _
                              c heff hC))))))))) ?_ ?_
          · rw [addLines_addLines, addLines_addLines]
            obtain ⟨props, lore, slot, durability, enchantable, pushCount⟩ := s
            unfold updateLoreSt effectsBit at *
            cases slot <;> simp [addLines, heff] at * <;> omega
          · simp only [List.append_assoc, List.cons_append, List.nil_append,
              List.singleton_append]
            congr 1
            refine List.eq_replicate_iff.mpr ⟨?_, ?_⟩
            · simp [effectsBit, heff]
              omega
            · intro x hx
              simp [List.mem_append, List.mem_cons, List.mem_replicate] at hx
              tauto

theorem runsErrA_bind {α β : Type} {x : M α} {f : α → M β} {s : ItemSt} {e : String}
    (h : RunsErrA x s e) : RunsErrA (x >>= f) s e := by
  obtain ⟨tr, htr⟩ := h
  exact ⟨tr, runsErr_bind htr⟩

theorem runsOk_bind_errA {α β : Type} {x : M α} {f : α → M β} {s s₁ : ItemSt}
    {a : α} {e : String} {t₁ : List Ev}
    (h1 : RunsOk x s a s₁ t₁) (h2 : RunsErrA (f a) s₁ e) : RunsErrA (x >>= f) s e := by
  obtain ⟨tr, htr⟩ := h2
  exact ⟨t₁ ++ tr, runsOk_bind_err h1 htr⟩

theorem updateLore_runs_err (enchantmentTitles itemEffects : String → Option String)
    (s : ItemSt) (e : String) (h : updateLoreGen enchantmentTitles itemEffects s = .error e) :
    ∃ tr, RunsErr (ItemData.updateLore enchantmentTitles itemEffects) s e tr := by
  show RunsErrA (ItemData.updateLore enchantmentTitles itemEffects) s e
  unfold updateLoreGen at h
  dsimp only at h
  unfold ItemData.updateLore
  cases hA : genList (loreEntryGen (readMeta s "lore")) (forInKeys (readMeta s "lore")) with
  | error eA =>
    rw [hA] at h
    simp at h
    subst h
    refine runsOk_bind_errA (runsOk_emit s Ev.evUpdateLore) ?_
    refine runsOk_bind_errA (getCustomEnchantments_runs s) ?_
    refine runsOk_bind_errA (setLore_runs [] s) ?_
    refine runsOk_bind_errA (getDynamicProperty_runs "lore" _) ?_
    refine runsErrA_bind ?_
    exact (forEachM_runs (loreEntryBody (readMeta s "lore"))
      (loreEntryGen (readMeta s "lore")) (loreEntryBody_runs_ok (readMeta s "lore"))
      (loreEntryBody_runs_err (readMeta s "lore")) (forInKeys (readMeta s "lore")) _).2 eA hA
  | ok a =>
    rw [hA] at h
    cases hB : genList (enchLineGen enchantmentTitles (readMeta s "enchantments"))
        (forInKeys (readMeta s "enchantments")) with
    | error eB =>
      rw [hB] at h
      simp at h
      subst h
      refine runsOk_bind_errA (runsOk_emit s Ev.evUpdateLore) ?_
      refine runsOk_bind_errA (getCustomEnchantments_runs s) ?_
      refine runsOk_bind_errA (setLore_runs [] s) ?_
      refine runsOk_bind_errA (getDynamicProperty_runs "lore" _) ?_
      refine runsOk_bind_errA
        ((forEachM_runs (loreEntryBody (readMeta s "lore"))
          (loreEntryGen (readMeta s "lore"))
          (loreEntryBody_runs_ok (readMeta s "lore"))
          (loreEntryBody_runs_err (readMeta s "lore"))
          (forInKeys (readMeta s "lore")) _).1 a hA) ?_
      refine runsOk_bind_errA (addLore_runs enchantmentsHeaderLine _) ?_
      refine runsErrA_bind ?_
      exact (forEachM_runs
        (enchLineBody enchantmentTitles (readMeta s "enchantments"))
        (enchLineGen enchantmentTitles (readMeta s "enchantments"))
        (enchLineBody_runs_ok enchantmentTitles (readMeta s "enchantments"))
        (enchLineBody_runs_err enchantmentTitles (readMeta s "enchantments"))
        (forInKeys (readMeta s "enchantments")) _).2 eB hB
    | ok b =>
      rw [hB] at h
      dsimp only at h
      by_cases heff : (forInKeys (readMeta s "effects")).length = 0
      · rw [if_pos heff] at h
        simp at h
      · rw [if_neg heff] at h
        cases hC : genList (effectLineGen itemEffects (readMeta s "effects"))
            (forInKeys (readMeta s "effects")) with
        | ok c => rw [hC] at h; simp at h
        | error eC =>
          rw [hC] at h
          simp at h
          subst h
          refine runsOk_bind_errA (runsOk_emit s Ev.evUpdateLore) ?_
          refine runsOk_bind_errA (getCustomEnchantments_runs s) ?_
          refine runsOk_bind_errA (setLore_runs [] s) ?_
          refine runsOk_bind_errA (getDynamicProperty_runs "lore" _) ?_
          refine runsOk_bind_errA
            ((forEachM_runs (loreEntryBody (readMeta s "lore"))
              (loreEntryGen (readMeta s "lore"))
              (loreEntryBody_runs_ok (readMeta s "lore"))
              (loreEntryBody_runs_err (readMeta s "lore"))
              (forInKeys (readMeta s "lore")) _).1 a hA) ?_
          refine runsOk_bind_errA (addLore_runs enchantmentsHeaderLine _) ?_
          refine runsOk_bind_errA
            ((forEachM_runs
              (enchLineBody enchantmentTitles (readMeta s "enchantments"))
              (enchLineGen enchantmentTitles (readMeta s "enchantments"))
              (enchLineBody_runs_ok enchantmentTitles (readMeta s "enchantments"))
              (enchLineBody_runs_err enchantmentTitles (readMeta s "enchantments"))
              (forInKeys (readMeta s "enchantments")) _).1 b hB) ?_
          refine runsOk_bind_errA (getEffects_runs _) ?_
          exact updateLoreTail_runs_err itemEffects (readMeta s "effects") _ eC heff hC

/-- Inversion: a successful `updateLore` run is exactly the one the pure
mirror describes. -/
theorem updateLore_run_ok_inv (enchantmentTitles itemEffects : String → Option String)
    (s s' : ItemSt) (tr : List Ev)
    (h : ItemData.updateLore enchantmentTitles itemEffects s = (.ok ((), s'), tr)) :
    ∃ L, updateLoreGen enchantmentTitles itemEffects s = .ok L ∧ s' = updateLoreSt s L ∧
      tr = Ev.evUpdateLore :: List.replicate (1 + L.length + effectsBit s) Ev.evUpdateItem := by
  cases hg : updateLoreGen enchantmentTitles itemEffects s with
  | ok L =>
    have hr := updateLore_runs_ok enchantmentTitles itemEffects s L hg
    unfold RunsOk at hr
    rw [hr] at h
    simp only [Prod.mk.injEq, Except.ok.injEq] at h
    exact ⟨L, rfl, h.1.2.symm, h.2.symm⟩
  | error e =>
    obtain ⟨tr', hr⟩ := updateLore_runs_err enchantmentTitles itemEffects s e hg
    unfold RunsErr at hr
    rw [hr] at h
    simp at h

/-! ### Claim theorems -/

/-- Claim C7: for every form submission via `queueForm`, a response
cancelled with reason `UserBusy` triggers exactly one re-submission of the
identical form object, handled recursively in the same way; a response
cancelled with any other reason triggers zero re-submissions and never
invokes the result callback; a non-cancelled response invokes the callback
with the response; and a submission fault is logged and swallowed, never
propagated. -/
theorem c7_queueForm_retry_protocol {Form : Type} (form : Form)
    (rest : List ShowOutcome) (n : Nat) (err : String) :
    (queueForm form (.canceled .UserBusy :: rest)
      = { submissions := form :: (queueForm form rest).submissions,
          callbackCalls := (queueForm form rest).callbackCalls,
          loggedErrors := (queueForm form rest).loggedErrors }) ∧
    ((queueForm form [ShowOutcome.canceled .UserBusy]).submissions = [form, form]) ∧
    (queueForm form (.canceled .UserClosed :: rest)
      = { submissions := [form], callbackCalls := [], loggedErrors := [] }) ∧
    (queueForm form (.selected n :: rest)
      = { submissions := [form], callbackCalls := [.selected n], loggedErrors := [] }) ∧
    (queueForm form (.rejected err :: rest)
      = { submissions := [form], callbackCalls := [], loggedErrors := [err] }) :=
  ⟨rfl, rfl, rfl, rfl, rfl⟩

/-- Claim C10: constructing an `ItemData` wrapper around an item with a
durability capability component immediately sets that component's damage
to 0 (fully repairing the wrapped item copy), leaving the rest of the item
untouched, before any method is called. -/
theorem c10_construct_zeroes_damage (item : ItemSt) (slot : Option SlotRef) (d : DurComp)
    (h : item.durability = some d) :
    ((ItemData.construct item slot).item).durability
        = some { damage := 0, maxDurability := d.maxDurability } ∧
    (ItemData.construct item slot).maxDurability = d.maxDurability ∧
    ((ItemData.construct item slot).item).props = item.props ∧
    ((ItemData.construct item slot).item).lore = item.lore ∧
    ((ItemData.construct item slot).item).enchantable = item.enchantable := by
  unfold ItemData.construct
  rw [h]
  simp

/-- Witness for C10 at a concrete item holding a damaged durability
component. -/
theorem c10_witness :
    ((ItemData.construct
      { props := [], lore := [], slot := none, durability := some ⟨5, 100⟩,
        enchantable := none, pushCount := 0 } none).item).durability
      = some { damage := 0, maxDurability := 100 } :=
  (c10_construct_zeroes_damage _ none ⟨5, 100⟩ rfl).1

/-- Claim C3 (evaluating the code at the failing input): on an item whose
enchantable component holds one built-in enchantment, the method body of
`removeAllEnchantments` returns normally after one `updateItem` call, yet
the component still holds the enchantment — the source merely references
the host operation without invoking it, so the enchantments are not
removed. -/
theorem c3_removeAllEnchantments_noop :
    ItemData.removeAllEnchantments sharpnessItem
      = (.ok ((), sharpnessItem), [Ev.evUpdateItem]) ∧
    sharpnessItem.enchantable = some ⟨[("sharpness", 3)]⟩ ∧
    (some (⟨[("sharpness", 3)]⟩ : EnchComp) ≠ some (⟨[]⟩ : EnchComp)) := by
  refine ⟨rfl, rfl, ?_⟩
  simp

/-! ### The dynamic-property round trip (C8) -/

theorem getRawProp_setRawProp (props : List (String × Raw)) (key : String) (v : Raw) :
    getRawProp (setRawProp props key v) key = some v := by
  induction props with
  | nil => simp [setRawProp, getRawProp]
  | cons p t ih =>
    obtain ⟨k, w⟩ := p
    by_cases hk : k = key
    · simp [setRawProp, getRawProp, hk]
    · simp [setRawProp, getRawProp, hk, ih]

theorem safeJsonParser_toRaw (j : Json)
    (hj : ∀ str, j = .jstr str → decodeJson str = none) :
    safeJsonParser (some (toRaw j)) = .val j := by
  cases j with
  | jstr str => simp [toRaw, safeJsonParser, hj str rfl]
  | jnull => simp [toRaw, safeJsonParser, decodeJson_encJson]
  | jarr xs => simp [toRaw, safeJsonParser, decodeJson_encJson]
  | jobj fs => simp [toRaw, safeJsonParser, decodeJson_encJson]
  | jnum n => rfl
  | jbool b => rfl

/-- Counterexample to claim C8: for the string value `v` that happens to be
a valid JSON encoding (here, of the number 5), `setDynamicProperty(k, v)`
followed by `getDynamicProperty(k)` on the world store returns the decoded
number, which is not deep-equal to the stored string. -/
theorem c8_counterexample :
    (WorldDataT.setDynamicProperty ⟨[]⟩ "k" (.val (.jstr (safeJsonStringify (.jnum 5))))
      = .ok ⟨[("k", .rstr (safeJsonStringify (.jnum 5)))]⟩) ∧
    (WorldDataT.getDynamicProperty ⟨[("k", .rstr (safeJsonStringify (.jnum 5)))]⟩ "k"
      = .val (.jnum 5)) ∧
    JSVal.val (.jnum 5) ≠ JSVal.val (.jstr (safeJsonStringify (.jnum 5))) := by
  refine ⟨rfl, rfl, ?_⟩
  simp

/-- Claim C8, amended: the round trip holds for every JSON-serializable
value that is not itself the text of a valid JSON encoding — numbers,
booleans, `null`, arrays, objects, and strings that do not decode; a
string that is a valid encoding comes back as the decoded value instead;
and writing `undefined` raises `Invalid value.` without storing anything,
on both the world store and the item store. -/
theorem c8_amended_roundtrip (j : Json)
    (hj : ∀ str, j = .jstr str → decodeJson str = none) :
    (∀ (w w' : WorldSt) (key : String),
      WorldDataT.setDynamicProperty w key (.val j) = .ok w' →
      WorldDataT.getDynamicProperty w' key = .val j) ∧
    (∀ (w : WorldSt) (key : String),
      WorldDataT.setDynamicProperty w key .undef = .error "Invalid value.") ∧
    (∀ (s : ItemSt) (key : String),
      RunsOk (ItemData.setDynamicProperty key (.val j)) s ()
        { s with props := setRawProp s.props key (toRaw j),
                 pushCount := s.pushCount + (if s.slot.isSome then 1 else 0) }
        [Ev.evUpdateItem] ∧
      RunsOk (ItemData.getDynamicProperty key)
        { s with props := setRawProp s.props key (toRaw j),
                 pushCount := s.pushCount + (if s.slot.isSome then 1 else 0) }
        (.val j)
        { s with props := setRawProp s.props key (toRaw j),
                 pushCount := s.pushCount + (if s.slot.isSome then 1 else 0) }
        []) ∧
    (∀ (s : ItemSt) (key : String),
      RunsErr (ItemData.setDynamicProperty key .undef) s "Invalid value." []) := by
  refine ⟨?_, ?_, ?_, ?_⟩
  · intro w w' key hset
    unfold WorldDataT.setDynamicProperty at hset
    simp only [Except.ok.injEq] at hset
    subst hset
    unfold WorldDataT.getDynamicProperty
    simp [getRawProp_setRawProp, safeJsonParser_toRaw j hj]
  · intro w key
    rfl
  · intro s key
    refine ⟨setDynamicProperty_runs_val key j s, ?_⟩
    have := getDynamicProperty_runs key
      { s with props := setRawProp s.props key (toRaw j),
               pushCount := s.pushCount + (if s.slot.isSome then 1 else 0) }
    rw [show getRawProp (setRawProp s.props key (toRaw j)) key = some (toRaw j)
      from getRawProp_setRawProp s.props key (toRaw j)] at this
    rw [safeJsonParser_toRaw j hj] at this
    exact this
  · intro s key
    rfl

/-- Witness for the amended C8 at the number value 7 on a world store and
an item store. -/
theorem c8_amended_witness :
    WorldDataT.getDynamicProperty ⟨[("hp", .rnum 7)]⟩ "hp" = .val (.jnum 7) ∧
    RunsErr (ItemData.setDynamicProperty "hp" .undef) emptyItem "Invalid value." [] := by
  constructor
  · exact (c8_amended_roundtrip (.jnum 7) (fun str hstr => by cases hstr)).1 ⟨[]⟩ _ "hp" rfl
  · exact (c8_amended_roundtrip (.jnum 7) (fun str hstr => by cases hstr)).2.2.2 emptyItem "hp"

/-- Claim C6 (evaluating the code at the failing input): adding the effect
descriptor `{effect := "swiftness", name := "speed", level := 1}` stores
the entry under the key `"swiftness"` — the descriptor's `effect` field —
so the stored mapping does not map the effect's name `"speed"` to the
descriptor: `getEffects()["speed"]` is `undefined`, while the entry sits
under `"swiftness"`. -/
theorem c6_addEffect_keyed_by_effect_field :
    (ItemData.addEffect ⟨"swiftness", "speed", 1⟩ emptyItem
      = (.ok ((), { emptyItem with
          props := [("effects", .rstr (safeJsonStringify
            (.jobj [("swiftness", ItemEffectDataT.toJson ⟨"swiftness", "speed", 1⟩)])))] }),
        [Ev.evUpdateItem])) ∧
    (ItemData.getEffects { emptyItem with
        props := [("effects", .rstr (safeJsonStringify
          (.jobj [("swiftness", ItemEffectDataT.toJson ⟨"swiftness", "speed", 1⟩)])))] }
      = (.ok (.val (.jobj [("swiftness", ItemEffectDataT.toJson ⟨"swiftness", "speed", 1⟩)]),
          { emptyItem with
            props := [("effects", .rstr (safeJsonStringify
              (.jobj [("swiftness", ItemEffectDataT.toJson ⟨"swiftness", "speed", 1⟩)])))] }),
        [])) ∧
    (jsIndex (.val (.jobj [("swiftness", ItemEffectDataT.toJson ⟨"swiftness", "speed", 1⟩)]))
      "speed" = .undef) ∧
    (jsIndex (.val (.jobj [("swiftness", ItemEffectDataT.toJson ⟨"swiftness", "speed", 1⟩)]))
      "swiftness" = .val (ItemEffectDataT.toJson ⟨"swiftness", "speed", 1⟩)) := by
  refine ⟨?_, ?_, rfl, rfl⟩
  · rfl
  · show (do
        let v ← ItemData.getDynamicProperty "effects"
        pure (jsOr v (.val (.jobj []))) : M JSVal) _ = _
    rfl

/-! ### Counting `updateLore` invocations (C1) -/

theorem count_bind_zero {α β : Type} {x : M α} {f : α → M β}
    (hx : ∀ s, ((x s).2).count Ev.evUpdateLore = 0)
    (hf : ∀ a s, ((f a s).2).count Ev.evUpdateLore = 0) (s : ItemSt) :
    (((x >>= f) s).2).count Ev.evUpdateLore = 0 := by
  show ((M.bind x f s).2).count Ev.evUpdateLore = 0
  unfold M.bind
  cases hxs : x s with
  | mk r t =>
    have h1 : t.count Ev.evUpdateLore = 0 := by
      have := hx s; rw [hxs] at this; exact this
    cases r with
    | error e => simpa using h1
    | ok p =>
      obtain ⟨a, s'⟩ := p
      cases hfs : f a s' with
      | mk r' t' =>
        have h2 : t'.count Ev.evUpdateLore = 0 := by
          have := hf a s'; rw [hfs] at this; exact this
        simp [List.count_append, h1, h2, hf a s']

theorem count_updateItem_zero (s : ItemSt) :
    ((ItemData.updateItem s).2).count Ev.evUpdateLore = 0 := by
  unfold ItemData.updateItem
  cases s.slot <;> rfl

theorem count_getDynamicProperty_zero (key : String) (s : ItemSt) :
    ((ItemData.getDynamicProperty key s).2).count Ev.evUpdateLore = 0 := rfl

theorem count_setDynamicProperty_zero (key : String) (value : JSVal) (s : ItemSt) :
    ((ItemData.setDynamicProperty key value s).2).count Ev.evUpdateLore = 0 := by
  cases value with
  | undef => rfl
  | val j =>
    have h := setDynamicProperty_runs_val key j s
    unfold RunsOk at h
    rw [show ItemData.setDynamicProperty key (.val j) s
      = ((ItemData.setDynamicProperty key (.val j)) s) from rfl, h]
    rfl

theorem count_ofExcept_zero {α : Type} (x : Except String α) (s : ItemSt) :
    ((M.ofExcept x s).2).count Ev.evUpdateLore = 0 := by
  cases x <;> rfl

theorem count_addCustomLore_zero (lore : LoreVal) (category : Option String) (s : ItemSt) :
    ((ItemData.addCustomLore lore category s).2).count Ev.evUpdateLore = 0 := by
  unfold ItemData.addCustomLore
  exact count_bind_zero (count_getDynamicProperty_zero "lore")
    (fun a => count_bind_zero (fun s' => count_ofExcept_zero _ s')
      (fun b => count_setDynamicProperty_zero "lore" b)) s

theorem count_removeCustomLore_zero (lore : LoreVal) (category : Option String) (s : ItemSt) :
    ((ItemData.removeCustomLore lore category s).2).count Ev.evUpdateLore = 0 := by
  unfold ItemData.removeCustomLore
  exact count_bind_zero (count_getDynamicProperty_zero "lore")
    (fun a => count_bind_zero (fun s' => count_ofExcept_zero _ s')
      (fun b => count_setDynamicProperty_zero "lore" b)) s

theorem count_setEffects_zero (effects : JSVal) (s : ItemSt) :
    ((ItemData.setEffects effects s).2).count Ev.evUpdateLore = 0 :=
  count_setDynamicProperty_zero "effects" effects s

theorem count_getEffects_zero (s : ItemSt) :
    ((ItemData.getEffects s).2).count Ev.evUpdateLore = 0 := rfl

theorem count_addEffect_zero (effect : ItemEffectDataT) (s : ItemSt) :
    ((ItemData.addEffect effect s).2).count Ev.evUpdateLore = 0 := by
  unfold ItemData.addEffect
  exact count_bind_zero count_getEffects_zero
    (fun a => count_bind_zero (fun s' => count_ofExcept_zero _ s')
      (fun b => count_setEffects_zero b)) s

theorem count_removeEffect_zero (effect : String) (s : ItemSt) :
    ((ItemData.removeEffect effect s).2).count Ev.evUpdateLore = 0 := by
  unfold ItemData.removeEffect
  exact count_bind_zero count_getEffects_zero
    (fun a => count_bind_zero (fun s' => count_ofExcept_zero _ s')
      (fun b => count_setEffects_zero b)) s

theorem bind_ok_inv {α β : Type} {x : M α} {f : α → M β} {s s₂ : ItemSt} {b : β}
    {tr : List Ev} (h : (x >>= f) s = (.ok (b, s₂), tr)) :
    ∃ a s₁ t₁ t₂, x s = (.ok (a, s₁), t₁) ∧ f a s₁ = (.ok (b, s₂), t₂) ∧ tr = t₁ ++ t₂ := by
  rcases hx : x s with ⟨r, t⟩
  cases r with
  | error e =>
    have hb : (x >>= f) s = (.error e, t) := runsErr_bind hx
    rw [hb] at h
    simp at h
  | ok p =>
    obtain ⟨a, s₁⟩ := p
    rcases hf : f a s₁ with ⟨r', t'⟩
    cases r' with
    | error e =>
      have hb : (x >>= f) s = (.error e, t ++ t') := runsOk_bind_err hx hf
      rw [hb] at h
      simp at h
    | ok q =>
      obtain ⟨b', s₂'⟩ := q
      have hb : (x >>= f) s = (.ok (b', s₂'), t ++ t') := runsOk_bind hx hf
      rw [hb] at h
      simp only [Prod.mk.injEq, Except.ok.injEq] at h
      obtain ⟨⟨hb1, hb2⟩, ht⟩ := h
      subst hb1
      subst hb2
      exact ⟨a, s₁, t, t', rfl, hf, ht.symm⟩

theorem count_updateLore_ok_one (enchantmentTitles itemEffects : String → Option String)
    {s s' : ItemSt} {tr : List Ev}
    (h : ItemData.updateLore enchantmentTitles itemEffects s = (.ok ((), s'), tr)) :
    tr.count Ev.evUpdateLore = 1 := by
  obtain ⟨L, _, _, htr⟩ := updateLore_run_ok_inv enchantmentTitles itemEffects s s' tr h
  subst htr
  simp [List.count_cons, List.count_replicate]

theorem count_setCustomEnchantments_ok_one (enchantmentTitles itemEffects : String → Option String)
    (v : JSVal) {s s' : ItemSt} {tr : List Ev}
    (h : ItemData.setCustomEnchantments enchantmentTitles itemEffects v s
      = (.ok ((), s'), tr)) :
    tr.count Ev.evUpdateLore = 1 := by
  unfold ItemData.setCustomEnchantments at h
  obtain ⟨a, s₁, t₁, t₂, hx, hf, htr⟩ := bind_ok_inv h
  subst htr
  have h1 : t₁.count Ev.evUpdateLore = 0 := by
    have := count_setDynamicProperty_zero "enchantments" v s
    rw [hx] at this
    exact this
  have h2 : t₂.count Ev.evUpdateLore = 1 := count_updateLore_ok_one enchantmentTitles itemEffects hf
  simp [List.count_append, h1, h2]

/-- Counterexample to claim C1: `addCustomLore` — a custom-lore mutation —
returns normally without ever invoking `updateLore` (its trace carries no
`updateLore` event, only the `updateItem` push from `setDynamicProperty`). -/
theorem c1_counterexample :
    (runMutation noTitles noTitles (.mAddCustomLore (.single "Hello") none) emptyItem
      = (.ok ((), { emptyItem with props := [("lore", .rstr (safeJsonStringify
          (.jobj [("Hello", .jstr "Hello")])))] }), [Ev.evUpdateItem])) ∧
    ([Ev.evUpdateItem].count Ev.evUpdateLore = 0) := by
  refine ⟨rfl, rfl⟩

/-- Claim C1, amended: only the custom-enchantment mutators
(`setCustomEnchantments`, `addCustomEnchantment`, `removeCustomEnchantment`)
invoke `updateLore` (exactly once) before returning; the custom-lore
mutators (`addCustomLore`, `removeCustomLore`) and the effect mutators
(`setEffects`, `addEffect`, `removeEffect`) never invoke it — for every
mutator run that returns normally, the number of `updateLore` invocations
in its trace is 1 for the enchantment mutators and 0 for the others. -/
theorem c1_amended_mutation_lore_calls (enchantmentTitles itemEffects : String → Option String)
    (m : MetaMutation) (s s' : ItemSt) (tr : List Ev)
    (h : runMutation enchantmentTitles itemEffects m s = (.ok ((), s'), tr)) :
    tr.count Ev.evUpdateLore = mutationLoreCalls m := by
  cases m with
  | mAddCustomLore lore category =>
    have := count_addCustomLore_zero lore category s
    rw [show ItemData.addCustomLore lore category s
      = runMutation enchantmentTitles itemEffects (.mAddCustomLore lore category) s from rfl,
      h] at this
    exact this
  | mRemoveCustomLore lore category =>
    have := count_removeCustomLore_zero lore category s
    rw [show ItemData.removeCustomLore lore category s
      = runMutation enchantmentTitles itemEffects (.mRemoveCustomLore lore category) s from rfl,
      h] at this
    exact this
  | mSetEffects effects =>
    have := count_setEffects_zero effects s
    rw [show ItemData.setEffects effects s
      = runMutation enchantmentTitles itemEffects (.mSetEffects effects) s from rfl,
      h] at this
    exact this
  | mAddEffect e =>
    have := count_addEffect_zero e s
    rw [show ItemData.addEffect e s
      = runMutation enchantmentTitles itemEffects (.mAddEffect e) s from rfl,
      h] at this
    exact this
  | mRemoveEffect name =>
    have := count_removeEffect_zero name s
    rw [show ItemData.removeEffect name s
      = runMutation enchantmentTitles itemEffects (.mRemoveEffect name) s from rfl,
      h] at this
    exact this
  | mSetCustomEnchantments v =>
    exact count_setCustomEnchantments_ok_one enchantmentTitles itemEffects v h
  | mAddCustomEnchantment e =>
    unfold runMutation ItemData.addCustomEnchantment at h
    obtain ⟨a, s₁, t₁, t₂, hx, hrest, htr⟩ := bind_ok_inv h
    obtain ⟨a₂, s₂', t₂₁, t₂₂, hx₂, hf₂, htr₂⟩ := bind_ok_inv hrest
    subst htr
    subst htr₂
    have h1 : t₁.count Ev.evUpdateLore = 0 := by
      have : ((ItemData.getCustomEnchantments s).2).count Ev.evUpdateLore = 0 := rfl
      rw [hx] at this
      exact this
    have h2 : t₂₁.count Ev.evUpdateLore = 0 := by
      have := count_ofExcept_zero (jsSetField a e.name e.toJson) s₁
      rw [hx₂] at this
      exact this
    have h3 : t₂₂.count Ev.evUpdateLore = 1 :=
      count_setCustomEnchantments_ok_one enchantmentTitles itemEffects a₂ hf₂
    simp [List.count_append, h1, h2, h3, mutationLoreCalls]
  | mRemoveCustomEnchantment name =>
    unfold runMutation ItemData.removeCustomEnchantment at h
    obtain ⟨a, s₁, t₁, t₂, hx, hrest, htr⟩ := bind_ok_inv h
    obtain ⟨a₂, s₂', t₂₁, t₂₂, hx₂, hf₂, htr₂⟩ := bind_ok_inv hrest
    subst htr
    subst htr₂
    have h1 : t₁.count Ev.evUpdateLore = 0 := by
      have : ((ItemData.getCustomEnchantments s).2).count Ev.evUpdateLore = 0 := rfl
      rw [hx] at this
      exact this
    have h2 : t₂₁.count Ev.evUpdateLore = 0 := by
      have := count_ofExcept_zero (jsDelete a name) s₁
      rw [hx₂] at this
      exact this
    have h3 : t₂₂.count Ev.evUpdateLore = 1 :=
      count_setCustomEnchantments_ok_one enchantmentTitles itemEffects a₂ hf₂
    simp [List.count_append, h1, h2, h3, mutationLoreCalls]

/-- Witness for the amended C1: a concrete effect mutation runs with zero
`updateLore` invocations and a concrete enchantment mutation with exactly
one. -/
theorem c1_amended_witness :
    ([Ev.evUpdateItem].count Ev.evUpdateLore
      = mutationLoreCalls (.mSetEffects (.val (.jobj [])))) ∧
    ([Ev.evUpdateItem, Ev.evUpdateLore, Ev.evUpdateItem, Ev.evUpdateItem].count Ev.evUpdateLore
      = mutationLoreCalls (.mSetCustomEnchantments (.val (.jobj [])))) := by
  constructor
  · exact c1_amended_mutation_lore_calls noTitles noTitles (.mSetEffects (.val (.jobj [])))
      emptyItem { emptyItem with props := [("effects", .rstr (safeJsonStringify (.jobj [])))] }
      [Ev.evUpdateItem] rfl
  · exact c1_amended_mutation_lore_calls noTitles noTitles
      (.mSetCustomEnchantments (.val (.jobj []))) emptyItem
      { emptyItem with props := [("enchantments", .rstr (safeJsonStringify (.jobj [])))], lore := [enchantmentsHeaderLine] }
      [Ev.evUpdateItem, Ev.evUpdateLore, Ev.evUpdateItem, Ev.evUpdateItem] rfl

theorem updateLoreGen_ok_one_le (enchantmentTitles itemEffects : String → Option String)
    (s : ItemSt) (L : List String)
    (h : updateLoreGen enchantmentTitles itemEffects s = .ok L) : 1 ≤ L.length := by
  unfold updateLoreGen at h
  dsimp only at h
  cases hA : genList (loreEntryGen (readMeta s "lore")) (forInKeys (readMeta s "lore")) with
  | error e => rw [hA] at h; simp at h
  | ok a =>
    rw [hA] at h
    cases hB : genList (enchLineGen enchantmentTitles (readMeta s "enchantments"))
        (forInKeys (readMeta s "enchantments")) with
    | error e => rw [hB] at h; simp at h
    | ok b =>
      rw [hB] at h
      dsimp only at h
      by_cases heff : (forInKeys (readMeta s "effects")).length = 0
      · rw [if_pos heff] at h
        simp only [Except.ok.injEq] at h
        subst h
        simp
        omega
      · rw [if_neg heff] at h
        cases hC : genList (effectLineGen itemEffects (readMeta s "effects"))
            (forInKeys (readMeta s "effects")) with
        | error e => rw [hC] at h; simp at h
        | ok c =>
          rw [hC] at h
          simp only [Except.ok.injEq] at h
          subst h
          simp
          omega

/-- Counterexample to claim C2: on an item with no metadata, a successful
`updateLore` run pushes the item back twice (once for the initial
`setLore([])` clear and once for the `addLore` of the Enchantments
header), not exactly once at the end. -/
theorem c2_counterexample :
    (ItemData.updateLore noTitles noTitles emptyItem
      = (.ok ((), { emptyItem with lore := [enchantmentsHeaderLine] }),
         [Ev.evUpdateLore, Ev.evUpdateItem, Ev.evUpdateItem])) ∧
    ([Ev.evUpdateLore, Ev.evUpdateItem, Ev.evUpdateItem].count Ev.evUpdateItem = 2) :=
  ⟨rfl, rfl⟩

/-- Claim C2, amended: a successful `updateLore` run invokes `updateItem`
once per lore write — once for the initial `setLore([])` clear and once
per `addLore` of an emitted line — plus one final explicit call only when
the effects section was emitted: the trace holds exactly
`1 + (number of emitted lines) + (1 if effects were emitted)` many
`updateItem` events, which is always at least 2, never exactly 1. -/
theorem c2_amended_updateItem_per_write (enchantmentTitles itemEffects : String → Option String)
    (s s' : ItemSt) (tr : List Ev)
    (h : ItemData.updateLore enchantmentTitles itemEffects s = (.ok ((), s'), tr)) :
    tr.count Ev.evUpdateItem = 1 + s'.lore.length + effectsBit s ∧
    2 ≤ tr.count Ev.evUpdateItem := by
  obtain ⟨L, hg, hs, htr⟩ := updateLore_run_ok_inv enchantmentTitles itemEffects s s' tr h
  subst htr
  subst hs
  have hlen : 1 ≤ L.length := updateLoreGen_ok_one_le enchantmentTitles itemEffects s L hg
  constructor
  · simp [List.count_cons, List.count_replicate, updateLoreSt]
  · simp [List.count_cons, List.count_replicate]
    omega

/-- Witness for the amended C2: the concrete empty-item run. -/
theorem c2_amended_witness :
    ([Ev.evUpdateLore, Ev.evUpdateItem, Ev.evUpdateItem].count Ev.evUpdateItem
      = 1 + ({ emptyItem with lore := [enchantmentsHeaderLine] } : ItemSt).lore.length
          + effectsBit emptyItem) ∧
    2 ≤ [Ev.evUpdateLore, Ev.evUpdateItem, Ev.evUpdateItem].count Ev.evUpdateItem :=
  c2_amended_updateItem_per_write noTitles noTitles emptyItem
    { emptyItem with lore := [enchantmentsHeaderLine] }
    [Ev.evUpdateLore, Ev.evUpdateItem, Ev.evUpdateItem] rfl

/-- Counterexample to claim C4: on the claimed scenario (custom lore
`Info ↦ "Rare Item"`, enchantment `sharpness ↦ \x7bname, level 3\x7d`, no
effects) the first lore line centers the mapping *value* "Rare Item" — no
line of the produced block displays the key "Info". -/
theorem c4_counterexample :
    (ItemData.updateLore sharpTitles noTitles scenarioItem
      = (.ok ((), { scenarioItem with lore := ["         Rare Item", enchantmentsHeaderLine, "        Sharpness 3"] }),
         Ev.evUpdateLore :: List.replicate 4 Ev.evUpdateItem)) ∧
    ((removeFormat "         Rare Item").data.dropWhile (fun c => c = ' ') ≠ "Info".data) ∧
    ((removeFormat enchantmentsHeaderLine).data.dropWhile (fun c => c = ' ') ≠ "Info".data) ∧
    ((removeFormat "        Sharpness 3").data.dropWhile (fun c => c = ' ') ≠ "Info".data) ∧
    ((removeFormat "         Rare Item").data.dropWhile (fun c => c = ' ') = "Rare Item".data) :=
  ⟨rfl, by decide, by decide, by decide, by decide⟩

/-- Claim C4, amended: on that scenario, `updateLore` writes, in order, a
centered "Rare Item" line — the single-string custom-lore *value*, with no
category header and no "Info" line —, the centered bold "Enchantments"
header, and a centered "Sharpness 3" line when the title table maps
"sharpness" to "Sharpness" (or "sharpness-failed 3" when the table lacks
the name); no "Effects" section is emitted, and the run ends normally. -/
theorem c4_amended_lore_block (enchantmentTitles itemEffects : String → Option String) :
    (enchantmentTitles "sharpness" = some "Sharpness" →
      ItemData.updateLore enchantmentTitles itemEffects scenarioItem
        = (.ok ((), { scenarioItem with lore := ["         Rare Item", enchantmentsHeaderLine, "        Sharpness 3"] }),
           Ev.evUpdateLore :: List.replicate 4 Ev.evUpdateItem)) ∧
    (enchantmentTitles "sharpness" = none →
      ItemData.updateLore enchantmentTitles itemEffects scenarioItem
        = (.ok ((), { scenarioItem with lore := ["         Rare Item", enchantmentsHeaderLine, "     sharpness-failed 3"] }),
           Ev.evUpdateLore :: List.replicate 4 Ev.evUpdateItem)) := by
  constructor
  · intro hET
    have he : enchLineGen enchantmentTitles (readMeta scenarioItem "enchantments") "sharpness"
        = .ok ["        Sharpness 3"] := by
      unfold enchLineGen
      dsimp only
      rw [show jsFieldE (jsIndex (readMeta scenarioItem "enchantments") "sharpness") "name"
        = Except.ok (JSVal.val (Json.jstr "sharpness")) from rfl]
      dsimp only
      rw [show jsToStr (JSVal.val (Json.jstr "sharpness")) = "sharpness" from rfl, hET]
      rfl
    have hg : updateLoreGen enchantmentTitles itemEffects scenarioItem
        = .ok ["         Rare Item", enchantmentsHeaderLine, "        Sharpness 3"] := by
      unfold updateLoreGen
      dsimp only
      rw [show genList (loreEntryGen (readMeta scenarioItem "lore"))
            (forInKeys (readMeta scenarioItem "lore")) = Except.ok ["         Rare Item"] from rfl,
          show forInKeys (readMeta scenarioItem "enchantments") = ["sharpness"] from rfl]
      unfold genList
      rw [he]
      rfl
    have hr := updateLore_runs_ok enchantmentTitles itemEffects scenarioItem
      ["         Rare Item", enchantmentsHeaderLine, "        Sharpness 3"] hg
    unfold RunsOk at hr
    exact hr
  · intro hET
    have he : enchLineGen enchantmentTitles (readMeta scenarioItem "enchantments") "sharpness"
        = .ok ["     sharpness-failed 3"] := by
      unfold enchLineGen
      dsimp only
      rw [show jsFieldE (jsIndex (readMeta scenarioItem "enchantments") "sharpness") "name"
        = Except.ok (JSVal.val (Json.jstr "sharpness")) from rfl]
      dsimp only
      rw [show jsToStr (JSVal.val (Json.jstr "sharpness")) = "sharpness" from rfl, hET]
      rfl
    have hg : updateLoreGen enchantmentTitles itemEffects scenarioItem
        = .ok ["         Rare Item", enchantmentsHeaderLine, "     sharpness-failed 3"] := by
      unfold updateLoreGen
      dsimp only
      rw [show genList (loreEntryGen (readMeta scenarioItem "lore"))
            (forInKeys (readMeta scenarioItem "lore")) = Except.ok ["         Rare Item"] from rfl,
          show forInKeys (readMeta scenarioItem "enchantments") = ["sharpness"] from rfl]
      unfold genList
      rw [he]
      rfl
    have hr := updateLore_runs_ok enchantmentTitles itemEffects scenarioItem
      ["         Rare Item", enchantmentsHeaderLine, "     sharpness-failed 3"] hg
    unfold RunsOk at hr
    exact hr

/-- Witness for the amended C4: both branches at concrete title tables. -/
theorem c4_amended_witness :
    (ItemData.updateLore sharpTitles noTitles scenarioItem
      = (.ok ((), { scenarioItem with lore := ["         Rare Item", enchantmentsHeaderLine, "        Sharpness 3"] }),
         Ev.evUpdateLore :: List.replicate 4 Ev.evUpdateItem)) ∧
    (ItemData.updateLore noTitles noTitles scenarioItem
      = (.ok ((), { scenarioItem with lore := ["         Rare Item", enchantmentsHeaderLine, "     sharpness-failed 3"] }),
         Ev.evUpdateLore :: List.replicate 4 Ev.evUpdateItem)) :=
  ⟨(c4_amended_lore_block sharpTitles noTitles).1 rfl,
   (c4_amended_lore_block noTitles noTitles).2 rfl⟩

theorem genList_mem {α : Type} (gen : α → Except String (List String)) (line : String) :
    ∀ (xs : List α) (ls : List String), genList gen xs = .ok ls → line ∈ ls →
      ∃ x, x ∈ xs ∧ ∃ l', gen x = .ok l' ∧ line ∈ l' := by
  intro xs
  induction xs with
  | nil =>
    intro ls h hm
    unfold genList at h
    simp only [Except.ok.injEq] at h
    subst h
    simp at hm
  | cons x t ih =>
    intro ls h hm
    unfold genList at h
    cases hx : gen x with
    | error e => rw [hx] at h; simp at h
    | ok a =>
      rw [hx] at h
      cases ht : genList gen t with
      | error e => rw [ht] at h; simp at h
      | ok b =>
        rw [ht] at h
        simp only [Except.ok.injEq] at h
        subst h
        rcases List.mem_append.mp hm with hma | hmb
        · exact ⟨x, by simp, a, hx, hma⟩
        · obtain ⟨y, hy, l', hl', hm'⟩ := ih b ht hmb
          exact ⟨y, by simp [hy], l', hl', hm'⟩

theorem loreLineGen_mem (j : Json) (l' : List String) (h : loreLineGen j = .ok l')
    (line : String) (hm : line ∈ l') : ∃ t, centeredBody t = some line := by
  unfold loreLineGen at h
  cases j with
  | jstr s =>
    dsimp only at h
    cases hc : centeredBody s with
    | some tt =>
      rw [hc] at h
      simp only [Except.ok.injEq] at h
      subst h
      simp only [List.mem_singleton] at hm
      subst hm
      exact ⟨s, hc⟩
    | none => rw [hc] at h; simp at h
  | jnull => simp at h
  | jbool b => simp at h
  | jnum n => simp at h
  | jarr es => simp at h
  | jobj fs => simp at h

theorem loreEntryGen_mem (customLore : JSVal) (key : String) (l' : List String)
    (h : loreEntryGen customLore key = .ok l') (line : String) (hm : line ∈ l') :
    (∃ t, centeredBody t = some line) ∨ ∃ k, line = catHeaderLine k := by
  unfold loreEntryGen at h
  cases hj : jsIndex customLore key with
  | undef => rw [hj] at h; simp at h
  | val j =>
    rw [hj] at h
    cases j with
    | jstr cur =>
      dsimp only at h
      cases hc : centeredBody cur with
      | some tt =>
        rw [hc] at h
        simp only [Except.ok.injEq] at h
        subst h
        simp only [List.mem_singleton] at hm
        subst hm
        exact .inl ⟨cur, hc⟩
      | none => rw [hc] at h; simp at h
    | jarr lines =>
      dsimp only at h
      cases hg : genList loreLineGen lines with
      | ok ls =>
        rw [hg] at h
        simp only [Except.ok.injEq] at h
        subst h
        rcases List.mem_cons.mp hm with h1 | h2
        · exact .inr ⟨key, h1⟩
        · obtain ⟨x, hx, l2, hl2, hm2⟩ := genList_mem loreLineGen line lines ls hg h2
          exact .inl (loreLineGen_mem x l2 hl2 line hm2)
      | error e => rw [hg] at h; simp at h
    | jnull => simp at h
    | jbool b => simp at h
    | jnum n => simp at h
    | jobj fs => simp at h

theorem enchLineGen_mem (enchantmentTitles : String → Option String) (enchantments : JSVal)
    (key : String) (l' : List String) (h : enchLineGen enchantmentTitles enchantments key = .ok l')
    (line : String) (hm : line ∈ l') : ∃ t, centeredBody t = some line := by
  unfold enchLineGen at h
  dsimp only at h
  cases hn : jsFieldE (jsIndex enchantments key) "name" with
  | error e => rw [hn] at h; simp at h
  | ok nameV =>
    rw [hn] at h
    dsimp only at h
    cases hl : jsFieldE (jsIndex enchantments key) "level" with
    | error e => rw [hl] at h; simp at h
    | ok levelV =>
      rw [hl] at h
      dsimp only at h
      cases hc : centeredBody (strOr (enchantmentTitles (jsToStr nameV))
          (jsToStr nameV ++ "-failed") ++ " " ++ jsToStr levelV) with
      | some tt =>
        rw [hc] at h
        simp only [Except.ok.injEq] at h
        subst h
        simp only [List.mem_singleton] at hm
        subst hm
        exact ⟨_, hc⟩
      | none => rw [hc] at h; simp at h

theorem effectLineGen_mem (itemEffects : String → Option String) (effects : JSVal)
    (key : String) (l' : List String) (h : effectLineGen itemEffects effects key = .ok l')
    (line : String) (hm : line ∈ l') : ∃ t, centeredBody t = some line := by
  unfold effectLineGen at h
  dsimp only at h
  cases hn : jsFieldE (jsIndex effects key) "name" with
  | error e => rw [hn] at h; simp at h
  | ok nameV =>
    rw [hn] at h
    dsimp only at h
    cases hc : centeredBody (strOr (itemEffects (jsToStr nameV)) (jsToStr nameV ++ "-failed")) with
    | some tt =>
      rw [hc] at h
      simp only [Except.ok.injEq] at h
      subst h
      simp only [List.mem_singleton] at hm
      subst hm
      exact ⟨_, hc⟩
    | none => rw [hc] at h; simp at h

theorem updateLoreGen_line_classification (enchantmentTitles itemEffects : String → Option String)
    (s : ItemSt) (L : List String) (hg : updateLoreGen enchantmentTitles itemEffects s = .ok L)
    (line : String) (hm : line ∈ L) :
    (∃ t, centeredBody t = some line) ∨ line = enchantmentsHeaderLine ∨
    line = effectsHeaderLine ∨ ∃ key, line = catHeaderLine key := by
  unfold updateLoreGen at hg
  dsimp only at hg
  cases hA : genList (loreEntryGen (readMeta s "lore")) (forInKeys (readMeta s "lore")) with
  | error e => rw [hA] at hg; simp at hg
  | ok a =>
    rw [hA] at hg
    cases hB : genList (enchLineGen enchantmentTitles (readMeta s "enchantments"))
        (forInKeys (readMeta s "enchantments")) with
    | error e => rw [hB] at hg; simp at hg
    | ok b =>
      rw [hB] at hg
      dsimp only at hg
      by_cases heff : (forInKeys (readMeta s "effects")).length = 0
      · rw [if_pos heff] at hg
        simp only [Except.ok.injEq] at hg
        subst hg
        rcases List.mem_append.mp hm with hma | hmb
        · obtain ⟨x, hx, l2, hl2, hm2⟩ := genList_mem _ line _ a hA hma
          rcases loreEntryGen_mem _ x l2 hl2 line hm2 with hc | ⟨k, hk⟩
          · exact .inl hc
          · exact .inr (.inr (.inr ⟨k, hk⟩))
        · rcases List.mem_cons.mp hmb with h1 | h2
          · exact .inr (.inl h1)
          · obtain ⟨x, hx, l2, hl2, hm2⟩ := genList_mem _ line _ b hB h2
            exact .inl (enchLineGen_mem enchantmentTitles _ x l2 hl2 line hm2)
      · rw [if_neg heff] at hg
        cases hC : genList (effectLineGen itemEffects (readMeta s "effects"))
            (forInKeys (readMeta s "effects")) with
        | error e => rw [hC] at hg; simp at hg
        | ok c =>
          rw [hC] at hg
          simp only [Except.ok.injEq] at hg
          subst hg
          rcases List.mem_append.mp hm with hmab | hmc
          · rcases List.mem_append.mp hmab with hma | hmb
            · obtain ⟨x, hx, l2, hl2, hm2⟩ := genList_mem _ line _ a hA hma
              rcases loreEntryGen_mem _ x l2 hl2 line hm2 with hc | ⟨k, hk⟩
              · exact .inl hc
              · exact .inr (.inr (.inr ⟨k, hk⟩))
            · rcases List.mem_cons.mp hmb with h1 | h2
              · exact .inr (.inl h1)
              · obtain ⟨x, hx, l2, hl2, hm2⟩ := genList_mem _ line _ b hB h2
                exact .inl (enchLineGen_mem enchantmentTitles _ x l2 hl2 line hm2)
          · rcases List.mem_cons.mp hmc with h1 | h2
            · exact .inr (.inr (.inl h1))
            · obtain ⟨x, hx, l2, hl2, hm2⟩ := genList_mem _ line _ c hC h2
              exact .inl (effectLineGen_mem itemEffects _ x l2 hl2 line hm2)

theorem centeredBody_eq_pad (t line : String) (h : centeredBody t = some line) :
    line = mkSpaces (mathFloorHalfPlusHalf
        (((removeFormat "Has Custom Properties").length : Int)
          - ((removeFormat t).length : Int)) + 3).toNat ++ t := by
  unfold centeredBody at h
  dsimp only at h
  unfold jsRepeatSpaces at h
  by_cases hneg : mathFloorHalfPlusHalf ((longestText.length : Int)
      - ((removeFormat t).length : Int)) + 3 < 0
  · rw [if_pos hneg] at h
    simp at h
  · rw [if_neg hneg] at h
    simp only [Option.map_some', Option.some.injEq] at h
    exact h.symm

/-- Counterexample to claim C5: the category header emitted for key "Cat"
carries 14 leading spaces — the key-independent
`floor(W/2 + 0.5) + 3` — while the claimed header formula
`floor((W - len)/2) + 1` gives 10 for this key. -/
theorem c5_counterexample :
    (ItemData.updateLore noTitles noTitles categoryItem
      = (.ok ((), { categoryItem with lore := [catHeaderLine "Cat", "            line", enchantmentsHeaderLine] }),
         Ev.evUpdateLore :: List.replicate 4 Ev.evUpdateItem)) ∧
    (countLeadingSpaces (catHeaderLine "Cat") = 14) ∧
    (mathFloorHalf (((removeFormat "Has Custom Properties").length : Int)
        - ((removeFormat "§lCat§r").length : Int)) + 1 = 10) ∧
    (countLeadingSpaces (catHeaderLine "Cat") ≠ 10) :=
  ⟨rfl, by decide, by decide, by decide⟩

/-- Claim C5, amended: every line a successful `updateLore` writes is
either a centered body line, one of the two fixed section headers, or a
category header. Body lines are left-padded with exactly
`floor((W - len)/2 + 0.5) + 3` spaces (`W` the stripped display length of
"Has Custom Properties", `len` the line's stripped display length) and the
"Enchantments"/"Effects" headers with exactly `floor((W - len)/2) + 1` —
both as claimed — but a category header is left-padded with the
key-independent `floor(W/2 + 0.5) + 3` spaces, not `floor((W - len)/2) + 1`. -/
theorem c5_amended_padding (enchantmentTitles itemEffects : String → Option String)
    (s s' : ItemSt) (tr : List Ev)
    (h : ItemData.updateLore enchantmentTitles itemEffects s = (.ok ((), s'), tr)) :
    (∀ line, line ∈ s'.lore →
      (∃ t, centeredBody t = some line) ∨ line = enchantmentsHeaderLine ∨
      line = effectsHeaderLine ∨ ∃ key, line = catHeaderLine key) ∧
    (∀ t line, centeredBody t = some line →
      line = mkSpaces (mathFloorHalfPlusHalf (((removeFormat "Has Custom Properties").length : Int)
        - ((removeFormat t).length : Int)) + 3).toNat ++ t) ∧
    (enchantmentsHeaderLine = mkSpaces (mathFloorHalf (((removeFormat "Has Custom Properties").length : Int)
        - ((removeFormat (MinecraftFormatCodes.BOLD ++ "Enchantments" ++ MinecraftFormatCodes.RESET)).length : Int)) + 1).toNat
        ++ MinecraftFormatCodes.BOLD ++ "Enchantments" ++ MinecraftFormatCodes.RESET) ∧
    (effectsHeaderLine = mkSpaces (mathFloorHalf (((removeFormat "Has Custom Properties").length : Int)
        - ((removeFormat (MinecraftFormatCodes.BOLD ++ "Effects" ++ MinecraftFormatCodes.RESET)).length : Int)) + 1).toNat
        ++ MinecraftFormatCodes.BOLD ++ "Effects" ++ MinecraftFormatCodes.RESET) ∧
    (∀ key, catHeaderLine key
      = mkSpaces (mathFloorHalfPlusHalf ((removeFormat "Has Custom Properties").length : Int) + 3).toNat
        ++ MinecraftFormatCodes.BOLD ++ key ++ MinecraftFormatCodes.RESET) := by
  obtain ⟨L, hg, hs, htr⟩ := updateLore_run_ok_inv enchantmentTitles itemEffects s s' tr h
  refine ⟨?_, ?_, rfl, rfl, fun key => rfl⟩
  · intro line hline
    have hml : line ∈ L := by
      rw [hs] at hline
      exact hline
    exact updateLoreGen_line_classification enchantmentTitles itemEffects s L hg line hml
  · intro t line hc
    exact centeredBody_eq_pad t line hc

/-- Witness for the amended C5: the concrete category-header run, with the
classification and the category-header pad instantiated at key "Cat". -/
theorem c5_amended_witness :
    ((∃ t, centeredBody t = some (catHeaderLine "Cat")) ∨
      catHeaderLine "Cat" = enchantmentsHeaderLine ∨
      catHeaderLine "Cat" = effectsHeaderLine ∨
      ∃ key, catHeaderLine "Cat" = catHeaderLine key) ∧
    (catHeaderLine "Cat"
      = mkSpaces (mathFloorHalfPlusHalf ((removeFormat "Has Custom Properties").length : Int) + 3).toNat
        ++ MinecraftFormatCodes.BOLD ++ "Cat" ++ MinecraftFormatCodes.RESET) :=
  have H := c5_amended_padding noTitles noTitles categoryItem
    { categoryItem with lore := [catHeaderLine "Cat", "            line", enchantmentsHeaderLine] }
    (Ev.evUpdateLore :: List.replicate 4 Ev.evUpdateItem) rfl
  ⟨H.1 (catHeaderLine "Cat") (by simp), H.2.2.2.2 "Cat"⟩

theorem button_nat_titleText (typeIdToDataId typeIdToID : String → Option Int)
    (f : ChestFormData) (slot : Nat) (n : String) (d : List String) (tex : String)
    (st : Int) (en : Bool) :
    (ChestFormData.button typeIdToDataId typeIdToID f (slot : Int) n d tex st en).titleText
      = f.titleText := rfl

theorem button_nat_slotCount (typeIdToDataId typeIdToID : String → Option Int)
    (f : ChestFormData) (slot : Nat) (n : String) (d : List String) (tex : String)
    (st : Int) (en : Bool) :
    (ChestFormData.button typeIdToDataId typeIdToID f (slot : Int) n d tex st en).slotCount
      = f.slotCount := rfl

theorem button_nat_length (typeIdToDataId typeIdToID : String → Option Int)
    (f : ChestFormData) (slot : Nat) (n : String) (d : List String) (tex : String)
    (st : Int) (en : Bool) (h : slot < f.buttonArray.length) :
    (ChestFormData.button typeIdToDataId typeIdToID f (slot : Int) n d tex st en).buttonArray.length
      = f.buttonArray.length := by
  unfold ChestFormData.button jsArraySet
  dsimp only
  rw [if_neg (by omega : ¬ ((slot : Nat) : Int) < 0),
    if_pos (show ((slot : Nat) : Int).toNat < f.buttonArray.length from h)]
  simp

theorem button_nat_get_ne (typeIdToDataId typeIdToID : String → Option Int)
    (f : ChestFormData) (slot : Nat) (n : String) (d : List String) (tex : String)
    (st : Int) (en : Bool) (h : slot < f.buttonArray.length) (j : Nat) (hne : slot ≠ j) :
    (ChestFormData.button typeIdToDataId typeIdToID f (slot : Int) n d tex st en).buttonArray[j]?
      = f.buttonArray[j]? := by
  unfold ChestFormData.button jsArraySet
  dsimp only
  rw [if_neg (by omega : ¬ ((slot : Nat) : Int) < 0),
    if_pos (show ((slot : Nat) : Int).toNat < f.buttonArray.length from h)]
  exact List.getElem?_set_ne hne

theorem patternCols_spec (typeIdToDataId typeIdToID : String → Option Int)
    (key : String → Option PatternData) (slotCount : Nat) (rowIndex : Nat) :
    ∀ (chs : List Char) (colIndex : Nat) (f : ChestFormData),
      slotCount ≤ f.buttonArray.length →
      (patternCols typeIdToDataId typeIdToID key slotCount rowIndex chs colIndex f).titleText
          = f.titleText ∧
      (patternCols typeIdToDataId typeIdToID key slotCount rowIndex chs colIndex f).slotCount
          = f.slotCount ∧
      (patternCols typeIdToDataId typeIdToID key slotCount rowIndex chs colIndex f).buttonArray.length
          = f.buttonArray.length ∧
      ∀ i : Nat,
        (slotCount ≤ i ∨
          ∀ c : Nat, c + rowIndex * 9 = i → colIndex ≤ c → c - colIndex < chs.length →
            key (String.mk [chs.getD (c - colIndex) ' ']) = none) →
        (patternCols typeIdToDataId typeIdToID key slotCount rowIndex chs colIndex f).buttonArray[i]?
          = f.buttonArray[i]? := by
  intro chs
  induction chs with
  | nil =>
    intro colIndex f hlen
    unfold patternCols
    exact ⟨rfl, rfl, rfl, fun i _ => rfl⟩
  | cons ch chs ih =>
    intro colIndex f hlen
    unfold patternCols
    dsimp only
    cases hk : key (String.mk [ch]) with
    | none =>
      obtain ⟨ht, hs, hl, hget⟩ := ih (colIndex + 1) f hlen
      refine ⟨ht, hs, hl, ?_⟩
      intro i hcond
      refine hget i ?_
      rcases hcond with hge | hcond
      · exact .inl hge
      · right
        intro c h1 h2 h3
        have hh := hcond c h1 (by omega) (by simp; omega)
        rw [show c - colIndex = (c - (colIndex + 1)) + 1 from by omega] at hh
        exact hh
    | some data =>
      dsimp only
      by_cases hslot : colIndex + rowIndex * 9 < slotCount
      · rw [if_pos hslot]
        have hsl : colIndex + rowIndex * 9 < f.buttonArray.length := lt_of_lt_of_le hslot hlen
        have hblen := button_nat_length typeIdToDataId typeIdToID f (colIndex + rowIndex * 9)
          (data.itemName.getD "") (data.itemDesc.getD []) data.texture
          (data.stackAmount.getD 1) (data.enchanted.getD false) hsl
        obtain ⟨ht, hs, hl, hget⟩ := ih (colIndex + 1)
          (ChestFormData.button typeIdToDataId typeIdToID f ((colIndex + rowIndex * 9 : Nat) : Int)
            (data.itemName.getD "") (data.itemDesc.getD []) data.texture
            (data.stackAmount.getD 1) (data.enchanted.getD false))
          (by rw [hblen]; exact hlen)
        refine ⟨ht.trans (button_nat_titleText typeIdToDataId typeIdToID f _ _ _ _ _ _),
          hs.trans (button_nat_slotCount typeIdToDataId typeIdToID f _ _ _ _ _ _),
          hl.trans hblen, ?_⟩
        intro i hcond
        have hstep : (ChestFormData.button typeIdToDataId typeIdToID f
            ((colIndex + rowIndex * 9 : Nat) : Int) (data.itemName.getD "") (data.itemDesc.getD [])
            data.texture (data.stackAmount.getD 1) (data.enchanted.getD false)).buttonArray[i]?
            = f.buttonArray[i]? := by
          rcases hcond with hge | hcond
          · exact button_nat_get_ne typeIdToDataId typeIdToID f _ _ _ _ _ _ hsl i (by omega)
          · by_cases hi : colIndex + rowIndex * 9 = i
            · exfalso
              have hh := hcond colIndex (by omega) (by omega) (by simp)
              rw [show colIndex - colIndex = 0 from by omega, List.getD_cons_zero] at hh
              rw [hh] at hk
              exact Option.noConfusion hk
            · exact button_nat_get_ne typeIdToDataId typeIdToID f _ _ _ _ _ _ hsl i hi
        refine (hget i ?_).trans hstep
        rcases hcond with hge | hcond
        · exact .inl hge
        · right
          intro c h1 h2 h3
          have hh := hcond c h1 (by omega) (by simp; omega)
          rw [show c - colIndex = (c - (colIndex + 1)) + 1 from by omega] at hh
          exact hh
      · rw [if_neg hslot]
        obtain ⟨ht, hs, hl, hget⟩ := ih (colIndex + 1) f hlen
        refine ⟨ht, hs, hl, ?_⟩
        intro i hcond
        refine hget i ?_
        rcases hcond with hge | hcond
        · exact .inl hge
        · right
          intro c h1 h2 h3
          have hh := hcond c h1 (by omega) (by simp; omega)
          rw [show c - colIndex = (c - (colIndex + 1)) + 1 from by omega] at hh
          exact hh

theorem patternRows_spec (typeIdToDataId typeIdToID : String → Option Int)
    (key : String → Option PatternData) (slotCount : Nat) :
    ∀ (rows : List String) (rowIndex : Nat) (f : ChestFormData),
      slotCount ≤ f.buttonArray.length →
      (patternRows typeIdToDataId typeIdToID key slotCount rows rowIndex f).titleText
          = f.titleText ∧
      (patternRows typeIdToDataId typeIdToID key slotCount rows rowIndex f).slotCount
          = f.slotCount ∧
      (patternRows typeIdToDataId typeIdToID key slotCount rows rowIndex f).buttonArray.length
          = f.buttonArray.length ∧
      ∀ i : Nat,
        (slotCount ≤ i ∨
          ∀ r c : Nat, r < rows.length → c + (rowIndex + r) * 9 = i →
            c < (rows.getD r "").data.length →
            key (String.mk [(rows.getD r "").data.getD c ' ']) = none) →
        (patternRows typeIdToDataId typeIdToID key slotCount rows rowIndex f).buttonArray[i]?
          = f.buttonArray[i]? := by
  intro rows
  induction rows with
  | nil =>
    intro rowIndex f hlen
    unfold patternRows
    exact ⟨rfl, rfl, rfl, fun i _ => rfl⟩
  | cons row rows ih =>
    intro rowIndex f hlen
    unfold patternRows
    obtain ⟨ct, cs, cl, cget⟩ := patternCols_spec typeIdToDataId typeIdToID key slotCount rowIndex
      row.data 0 f hlen
    obtain ⟨ht, hs, hl, hget⟩ := ih (rowIndex + 1)
      (patternCols typeIdToDataId typeIdToID key slotCount rowIndex row.data 0 f)
      (by rw [cl]; exact hlen)
    refine ⟨ht.trans ct, hs.trans cs, hl.trans cl, ?_⟩
    intro i hcond
    have hstep : (patternCols typeIdToDataId typeIdToID key slotCount rowIndex
        row.data 0 f).buttonArray[i]? = f.buttonArray[i]? := by
      refine cget i ?_
      rcases hcond with hge | hcond
      · exact .inl hge
      · right
        intro c h1 h2 h3
        have hh := hcond 0 c (by simp) (by omega) (by simpa using h3)
        simpa using hh
    refine (hget i ?_).trans hstep
    rcases hcond with hge | hcond
    · exact .inl hge
    · right
      intro r c hr h1 h2
      have hh := hcond (r + 1) c (by simp; omega) (by omega) (by simpa using h2)
      simpa using hh

/-- Claim C9: for every pattern and key mapping, `ChestFormData.pattern`
writes only to slot indices in `[0, slotCount)` — provided the button
array covers the slot count, its length, the slot count and the title are
preserved and every slot at index `slotCount` or beyond reads back
unchanged — and a slot all of whose pattern characters (a row longer than
nine characters can reach a later row's slots) are absent from the key
mapping is left exactly as it was before the call. -/
theorem c9_pattern_bounds (typeIdToDataId typeIdToID : String → Option Int)
    (key : String → Option PatternData) (pat : List String) (f : ChestFormData)
    (hlen : f.slotCount ≤ f.buttonArray.length) :
    ((ChestFormData.pattern typeIdToDataId typeIdToID f pat key).titleText = f.titleText) ∧
    ((ChestFormData.pattern typeIdToDataId typeIdToID f pat key).slotCount = f.slotCount) ∧
    ((ChestFormData.pattern typeIdToDataId typeIdToID f pat key).buttonArray.length
      = f.buttonArray.length) ∧
    (∀ i : Nat, f.slotCount ≤ i →
      (ChestFormData.pattern typeIdToDataId typeIdToID f pat key).buttonArray[i]?
        = f.buttonArray[i]?) ∧
    (∀ i : Nat,
      (∀ r c : Nat, r < pat.length → c + r * 9 = i → c < (pat.getD r "").data.length →
        key (String.mk [(pat.getD r "").data.getD c ' ']) = none) →
      (ChestFormData.pattern typeIdToDataId typeIdToID f pat key).buttonArray[i]?
        = f.buttonArray[i]?) := by
  obtain ⟨ht, hs, hl, hget⟩ := patternRows_spec typeIdToDataId typeIdToID key f.slotCount pat 0
    f hlen
  refine ⟨ht, hs, hl, ?_, ?_⟩
  · intro i hge
    exact hget i (.inl hge)
  · intro i hcond
    refine hget i (.inr ?_)
    intro r c hr h1 h2
    exact hcond r c hr (by omega) h2

/-- Witness for C9: a one-row pattern "ab" over a small chest; the form
metadata is preserved and the out-of-range slot 100 reads back unchanged. -/
theorem c9_witness :
    ((ChestFormData.pattern noIconIds noIconIds (ChestFormData.create .small) ["ab"] aPatternKey).slotCount
      = (ChestFormData.create .small).slotCount) ∧
    ((ChestFormData.pattern noIconIds noIconIds (ChestFormData.create .small) ["ab"] aPatternKey).buttonArray[100]?
      = (ChestFormData.create .small).buttonArray[100]?) :=
  have H := c9_pattern_bounds noIconIds noIconIds aPatternKey ["ab"] (ChestFormData.create .small)
    (by simp [ChestFormData.create, sizes])
  ⟨H.2.1, H.2.2.2.1 100 (by simp [ChestFormData.create, sizes])⟩
